import Mathlib

/-!
# sitemap-crawler: a verification development for `main.go`

Go strings are modelled as lists of code points (`GoString`), Go slices whose
nil-ness is observed by the program as `Option (List _)` (`Slice`), and the
two goroutine-based worklist engines as step functions over explicit states,
an interleaving being a list of scheduler actions. A call of `makeRequest`
returns a response, returns an error, or aborts the process (`Outcome`).
-/

namespace SitemapCrawler

/-- A Go string, as the list of its code points. -/
abbrev GoString := List Char

/-- A Go `[]string` value where being nil matters: `none` is the nil slice,
`some l` a non-nil slice holding `l`. -/
abbrev Slice := Option (List GoString)

/-- The elements a `range` loop over the slice visits (none for a nil slice). -/
def Slice.elems : Slice → List GoString
  | none => []
  | some l => l

/-- Go `append(s, x)`: the result is never nil. -/
def goAppend (s : Slice) (x : GoString) : Slice :=
  some (s.elems ++ [x])

/-! ## The `strings` functions used by `main.go` -/

/-- Go `strings.HasPrefix(s, p)`. -/
def HasPrefix : GoString → GoString → Bool
  | _, [] => true
  | [], _ :: _ => false
  | c :: s, d :: p => c == d && HasPrefix s p

/-- Go `strings.Contains(s, sub)`: `sub` starts at some position of `s`. -/
def Contains : GoString → GoString → Bool
  | [], sub => HasPrefix [] sub
  | c :: s, sub => HasPrefix (c :: s) sub || Contains s sub

/-- Go `strings.Split(s, sep)` for a one-character separator: the pieces
between the occurrences of `sep`, always at least one piece. -/
def Split (sep : Char) : GoString → List GoString
  | [] => [[]]
  | c :: s =>
    if c = sep then [] :: Split sep s
    else
      match Split sep s with
      | [] => [[c]]
      | p :: ps => (c :: p) :: ps

/-- Go `unicode.IsSpace`. -/
def isSpace (c : Char) : Bool :=
  let n := c.toNat
  n == 0x09 || n == 0x0A || n == 0x0B || n == 0x0C || n == 0x0D || n == 0x20 ||
  n == 0x85 || n == 0xA0 || n == 0x1680 || (0x2000 ≤ n && n ≤ 0x200A) ||
  n == 0x2028 || n == 0x2029 || n == 0x202F || n == 0x205F || n == 0x3000

/-- Go `strings.TrimSpace`: leading and trailing white space removed. -/
def TrimSpace (s : GoString) : GoString :=
  ((s.dropWhile isSpace).reverse.dropWhile isSpace).reverse

/-- Lower-casing of one code point: the ASCII letters, and the two non-ASCII
code points that Go lowers to an ASCII letter (U+0130 to `i`, U+212A to `k`).
Go maps the other non-ASCII upper-case letters to non-ASCII code points; they
are left unchanged here, which no comparison with ASCII text can observe. -/
def toLowerRune (c : Char) : Char :=
  if c.toNat = 0x130 then 'i'
  else if c.toNat = 0x212A then 'k'
  else c.toLower

/-- Go `strings.ToLower`. -/
def ToLower (s : GoString) : GoString :=
  s.map toLowerRune

/-! ## `isSitemap` (main.go 54-67) -/

/-- The function `isSitemap`: one pass over `urls`, appending each URL to
`sitemapFiles` when it contains `xml` and to `pages` otherwise; both results
start as the non-nil empty slice `[]string{}`. -/
def isSitemap (urls : List GoString) : Slice × Slice :=
  urls.foldl
    (fun acc page =>
      if Contains page "xml".toList then (goAppend acc.1 page, acc.2)
      else (acc.1, goAppend acc.2 page))
    (some [], some [])

/-- The test `isSitemap` applies to one URL. -/
def hasXml (u : GoString) : Bool := Contains u "xml".toList

/-- Merging two lists back along a list of flags: a `true` flag takes the next
element of the first list, a `false` flag the next element of the second. -/
def mergeByFlags : List Bool → List GoString → List GoString → List GoString
  | true :: fs, a :: as, bs => a :: mergeByFlags fs as bs
  | false :: fs, as, b :: bs => b :: mergeByFlags fs as bs
  | _, _, _ => []

/-! ## `parseRobotsTxt` (main.go 239-255) -/

/-- The body of the loop of `parseRobotsTxt` for one line: the new value of
`sitemaps`. `parts[1]` is the second piece of the line split at every colon. -/
def parseRobotsLine (baseURL : GoString) (sitemaps : List GoString) (line : GoString) :
    List GoString :=
  if HasPrefix (ToLower line) "sitemap:".toList then
    match Split ':' line with
    | _ :: p1 :: _ =>
      let sitemapURL := TrimSpace p1
      let sitemapURL :=
        if !HasPrefix sitemapURL "http".toList then baseURL ++ sitemapURL else sitemapURL
      sitemaps ++ [sitemapURL]
    | _ => sitemaps
  else sitemaps

/-- The function `parseRobotsTxt`: the lines of `contents` are visited in
order. -/
def parseRobotsTxt (contents baseURL : GoString) : List GoString :=
  (Split '\n' contents).foldl (parseRobotsLine baseURL) []

/-- The text of a line after its first colon (the whole line has no colon:
nothing). -/
def afterFirstColon : GoString → Option GoString
  | [] => none
  | c :: s => if c = ':' then some s else afterFirstColon s

/-- The entry the specification gives for one line: for a line whose
lower-cased form starts with `sitemap:`, the trimmed text after the first
colon, kept when it starts with `http` and put after `baseURL` otherwise. -/
def specRobotsEntry (baseURL line : GoString) : Option GoString :=
  if HasPrefix (ToLower line) "sitemap:".toList then
    match afterFirstColon line with
    | some rest =>
      let v := TrimSpace rest
      some (if HasPrefix v "http".toList then v else baseURL ++ v)
    | none => none
  else none

/-- The result the specification describes for `parseRobotsTxt`: one entry
per `sitemap:` line, in line order. -/
def specParseRobotsTxt (contents baseURL : GoString) : List GoString :=
  (Split '\n' contents).filterMap (specRobotsEntry baseURL)

/-! ## `makeRequest` (main.go 99-113) -/

/-- What a call can do: return a value, return an error, or abort the process
with a run-time panic. -/
inductive Outcome (α : Type) where
  | value (a : α)
  | error
  | abort
  deriving DecidableEq, Repr

/-- An HTTP request: its URL and headers. -/
structure Request where
  url : GoString
  header : List (GoString × GoString)
  deriving DecidableEq, Repr

/-- An HTTP response: its status code and the result of reading its body
(`none` when reading fails). -/
structure Response where
  StatusCode : Nat
  Body : Option GoString
  deriving DecidableEq, Repr

/-- The check `stringContainsCTLByte` of Go's `net/url`: an ASCII control
character occurs in the string. -/
def stringContainsCTLByte (s : GoString) : Bool :=
  s.any (fun c => c.toNat < 0x20 || c.toNat == 0x7f)

/-- Go `http.NewRequest("GET", url, nil)`: `none` is the pair (nil, error).
`url.Parse` refuses a URL with a control character; `parseRest` stands for the
remaining checks of `url.Parse`. -/
def NewRequest (parseRest : GoString → Bool) (url : GoString) : Option Request :=
  if stringContainsCTLByte url then none
  else if parseRest url then some { url := url, header := [] }
  else none

/-- The function `makeRequest`. `req.Header.Set` comes before the test of
`err`: with a nil `req` it dereferences nil and the process aborts. `clientDo`
is `client.Do` (`none` for a transport error), `userAgent` the value
`randomUserAgent()` returned. -/
def makeRequest (parseRest : GoString → Bool) (clientDo : Request → Option Response)
    (userAgent : GoString) (url : GoString) : Outcome Response :=
  match NewRequest parseRest url with
  | none => Outcome.abort
  | some req =>
    let req := { req with header := ("User-Agent".toList, userAgent) :: req.header }
    match clientDo req with
    | none => Outcome.error
    | some res => Outcome.value res

/-! ## `findSitemap` (main.go 202-236) -/

/-- The paths `findSitemap` probes, in order. -/
def commonPaths : List GoString :=
  ["/sitemap.xml".toList, "/sitemap_index.xml".toList, "/sitemap1.xml".toList,
   "/robots.txt".toList]

/-- The body of the loop of `findSitemap` for one path; `fetch` is
`makeRequest` as a function from the URL to a response (`none`: an error). -/
def findSitemapStep (fetch : GoString → Option Response) (baseURL : GoString)
    (sitemaps : List GoString) (path : GoString) : List GoString :=
  let fullURL := baseURL ++ path
  match fetch fullURL with
  | none => sitemaps
  | some resp =>
    if resp.StatusCode ≠ 200 then sitemaps
    else if path = "/robots.txt".toList then
      match resp.Body with
      | none => sitemaps
      | some body => sitemaps ++ parseRobotsTxt body baseURL
    else sitemaps ++ [fullURL]

/-- The function `findSitemap`. -/
def findSitemap (fetch : GoString → Option Response) (baseURL : GoString) : List GoString :=
  commonPaths.foldl (findSitemapStep fetch baseURL) []

/-- What one probed path contributes as a root: the probed URL when the
request returns a response with status 200, nothing otherwise. -/
def probeRoot (fetch : GoString → Option Response) (baseURL path : GoString) : List GoString :=
  match fetch (baseURL ++ path) with
  | some resp => if resp.StatusCode = 200 then [baseURL ++ path] else []
  | none => []

/-- What the probe of `/robots.txt` contributes: the entries of
`parseRobotsTxt` on the body when the request returns status 200 and the body
can be read, nothing otherwise. -/
def robotsRoots (fetch : GoString → Option Response) (baseURL : GoString) : List GoString :=
  match fetch (baseURL ++ "/robots.txt".toList) with
  | some resp =>
    if resp.StatusCode = 200 then
      match resp.Body with
      | some body => parseRobotsTxt body baseURL
      | none => []
    else []
  | none => []

/-! ## The two worklist engines -/

/-- Where the main goroutine of a worklist engine stands: at the head of the
loop `for ; n > 0; n--` (the test of `n`, then `list := <-worklist`), inside
`for _, link := range list` with the links still to visit, or returned. -/
inductive MainPc (ρ : Type) where
  | recv
  | range (rest : List GoString)
  | returned (result : List ρ)
  deriving DecidableEq, Repr

/-- One choice of the scheduler: the main goroutine moves by itself; the main
goroutine receives the batch of the seeding goroutine; it receives the batch
task `i` is sending; task `i` moves by itself. -/
inductive Act where
  | main
  | recvSeed
  | recvTask (i : Nat)
  | task (i : Nat)
  deriving DecidableEq, Repr

/-- An execution: the state after the actions of an interleaving, `none` when
one of them is not enabled where it is taken. -/
def runFrom {σ : Type} (step : σ → Act → Option σ) : σ → List Act → Option σ
  | s, [] => some s
  | s, a :: as =>
    match step s a with
    | none => none
    | some t => runFrom step t as

/-! ### `extractSitemapURLs` (main.go 69-97) -/

/-- The site a crawl runs against: `makeRequest` as a function of the URL (it
returns a response, returns an error with a nil response, or aborts the
process) and the text of the `loc` elements goquery finds in a response
(`none`: no document can be built). -/
structure Site where
  makeRequest : GoString → Outcome Response
  locTexts : Response → Option (List GoString)

/-- The site behind the function `makeRequest` of `main.go`, for a given
`url.Parse`, HTTP client and user agent. -/
def siteOf (parseRest : GoString → Bool) (clientDo : Request → Option Response)
    (userAgent : GoString) (locTexts : Response → Option (List GoString)) : Site :=
  { makeRequest := makeRequest parseRest clientDo userAgent, locTexts := locTexts }

/-- The function `extractUrls`: nil and an error when goquery builds no
document, as it does for a nil response. -/
def extractUrls (site : Site) : Option Response → Slice
  | none => none
  | some r => site.locTexts r

/-- Lines 80-88 of a task of `extractSitemapURLs`: request, extraction (its
error is dropped) and classification. The result is `none` when `makeRequest`
aborts the process; after an error the response handed to `extractUrls` is
nil. -/
def sitemapTaskFetch (site : Site) (link : GoString) : Option (Slice × Slice) :=
  match site.makeRequest link with
  | Outcome.abort => none
  | Outcome.error => some (isSitemap (extractUrls site none).elems)
  | Outcome.value response => some (isSitemap (extractUrls site (some response)).elems)

/-- Where a task of `extractSitemapURLs` stands: before `makeRequest`; before
`if sitemapFiles != nil { worklist <- sitemapFiles }`; before
`toCrawl = append(toCrawl, pages...)`; finished. -/
inductive ExtractTask where
  | fetch (link : GoString)
  | send (sitemapFiles : Slice) (pages : Slice)
  | append (pages : Slice)
  | done
  deriving DecidableEq, Repr

/-- The state of `extractSitemapURLs`: the counter `n`, the main goroutine,
the batch the seeding goroutine has still to send, the tasks launched so far,
the accumulator `toCrawl`, and whether a panic in a task has killed the
process. The channel `worklist` is unbuffered: a batch passes from a sender to
the main goroutine in one step. -/
structure ExtractState where
  n : Int
  main : MainPc GoString
  seed : Option (List GoString)
  tasks : List ExtractTask
  toCrawl : List GoString
  aborted : Bool
  deriving DecidableEq, Repr

/-- The state after `n++` and `go func() { worklist <- []string{startURL} }()`. -/
def extractInit (startURL : GoString) : ExtractState :=
  { n := 1, main := MainPc.recv, seed := some [startURL], tasks := [], toCrawl := [],
    aborted := false }

/-- One step of `extractSitemapURLs`. Nothing moves once the process is
killed; a task whose `makeRequest` panics kills it. -/
def extractStep (site : Site) (s : ExtractState) (a : Act) : Option ExtractState :=
  if s.aborted then none
  else
    match a with
    | Act.main =>
      match s.main with
      | MainPc.recv =>
        if s.n > 0 then none else some { s with main := MainPc.returned s.toCrawl }
      | MainPc.range [] => some { s with n := s.n - 1, main := MainPc.recv }
      | MainPc.range (link :: rest) =>
        some { s with n := s.n + 1, tasks := s.tasks ++ [ExtractTask.fetch link],
                      main := MainPc.range rest }
      | MainPc.returned _ => none
    | Act.recvSeed =>
      match s.main, s.seed with
      | MainPc.recv, some batch =>
        if s.n > 0 then some { s with seed := none, main := MainPc.range batch } else none
      | _, _ => none
    | Act.recvTask i =>
      match s.main, s.tasks[i]? with
      | MainPc.recv, some (ExtractTask.send (some sitemapFiles) pages) =>
        if s.n > 0 then
          some { s with tasks := s.tasks.set i (ExtractTask.append pages),
                        main := MainPc.range sitemapFiles }
        else none
      | _, _ => none
    | Act.task i =>
      match s.tasks[i]? with
      | some (ExtractTask.fetch link) =>
        match sitemapTaskFetch site link with
        | none => some { s with aborted := true }
        | some r => some { s with tasks := s.tasks.set i (ExtractTask.send r.1 r.2) }
      | some (ExtractTask.send none pages) =>
        some { s with tasks := s.tasks.set i (ExtractTask.append pages) }
      | some (ExtractTask.append pages) =>
        some { s with tasks := s.tasks.set i ExtractTask.done,
                      toCrawl := s.toCrawl ++ pages.elems }
      | _ => none

/-- The nested sitemaps of a sitemap URL: the batch its task sends (none when
the task aborts the process). -/
def nestedSitemaps (site : Site) (link : GoString) : List GoString :=
  match sitemapTaskFetch site link with
  | some r => r.1.elems
  | none => []

/-- The leaf pages listed by a sitemap URL. -/
def leafPages (site : Site) (link : GoString) : List GoString :=
  match sitemapTaskFetch site link with
  | some r => r.2.elems
  | none => []

/-- The sitemap tree below `link` has at most `d` levels of nested sitemaps. -/
def treeDepthLE (site : Site) : Nat → GoString → Bool
  | 0, link => (nestedSitemaps site link).isEmpty
  | d + 1, link => (nestedSitemaps site link).all (treeDepthLE site d)

/-- The leaf pages of the sitemap tree below `link`, down to `d` levels of
nested sitemaps. -/
def treeLeaves (site : Site) : Nat → GoString → List GoString
  | 0, link => leafPages site link
  | d + 1, link =>
    leafPages site link ++ ((nestedSitemaps site link).map (treeLeaves site d)).flatten

/-- A task of `extractSitemapURLs` that has not yet passed its batch to the
main goroutine. -/
def ExtractTask.undelivered : ExtractTask → Bool
  | ExtractTask.fetch _ => true
  | ExtractTask.send _ _ => true
  | _ => false

/-- A task of `extractSitemapURLs` whose batch the main goroutine has
received. -/
def ExtractTask.delivered : ExtractTask → Bool
  | ExtractTask.append _ => true
  | ExtractTask.done => true
  | _ => false

/-- A task of `extractSitemapURLs` that is launched and not finished. -/
def ExtractTask.running : ExtractTask → Bool
  | ExtractTask.done => false
  | _ => true

/-! ### `scrapeUrls` (main.go 115-141), `scrapePage`, `crawlPage` -/

/-- The record `SeoData`. -/
structure SeoData where
  URL : GoString
  Title : GoString
  H1 : GoString
  MetaDescription : GoString
  StatusCode : Nat
  deriving DecidableEq, Repr

/-- Where a task of `scrapeUrls` stands: in `crawlPage` before
`tokens <- struct{}{}`; holding a token while `makeRequest` runs; with the
result of `makeRequest`, before `<-tokens`; after `<-tokens`, before
`crawlPage` returns and `GetSeoData` is called; with the result of
`scrapePage`, before the append to `results`; before `worklist <- []string{}`;
finished. -/
inductive ScrapeTask where
  | acquire (url : GoString)
  | request (url : GoString)
  | release (resp : Option Response)
  | parse (resp : Option Response)
  | record (res : Option SeoData)
  | send
  | done
  deriving DecidableEq, Repr

/-- The state of `scrapeUrls`: the counter `n`, the main goroutine, the batch
the seeding goroutine has still to send, the tasks launched so far, the
number of tokens in the buffered channel `tokens`, and `results`. -/
structure ScrapeState where
  n : Int
  main : MainPc SeoData
  seed : Option (List GoString)
  tasks : List ScrapeTask
  tokens : Nat
  results : List SeoData
  deriving DecidableEq, Repr

/-- The state after `n++` and `go func() { worklist <- urls }()`. -/
def scrapeInit (urls : List GoString) : ScrapeState :=
  { n := 1, main := MainPc.recv, seed := some urls, tasks := [], tokens := 0, results := [] }

/-- One step of `scrapeUrls`; `fetch` is `makeRequest`, `parser` the method
`GetSeoData` (`none`: an error), `concurrency` the capacity of `tokens`. -/
def scrapeStep (fetch : GoString → Option Response) (parser : Response → Option SeoData)
    (concurrency : Nat) (s : ScrapeState) : Act → Option ScrapeState
  | Act.main =>
    match s.main with
    | MainPc.recv =>
      if s.n > 0 then none else some { s with main := MainPc.returned s.results }
    | MainPc.range [] => some { s with n := s.n - 1, main := MainPc.recv }
    | MainPc.range (url :: rest) =>
      if url ≠ [] then
        some { s with n := s.n + 1, tasks := s.tasks ++ [ScrapeTask.acquire url],
                      main := MainPc.range rest }
      else some { s with main := MainPc.range rest }
    | MainPc.returned _ => none
  | Act.recvSeed =>
    match s.main, s.seed with
    | MainPc.recv, some batch =>
      if s.n > 0 then some { s with seed := none, main := MainPc.range batch } else none
    | _, _ => none
  | Act.recvTask i =>
    match s.main, s.tasks[i]? with
    | MainPc.recv, some ScrapeTask.send =>
      if s.n > 0 then
        some { s with tasks := s.tasks.set i ScrapeTask.done, main := MainPc.range [] }
      else none
    | _, _ => none
  | Act.task i =>
    match s.tasks[i]? with
    | some (ScrapeTask.acquire url) =>
      if s.tokens < concurrency then
        some { s with tasks := s.tasks.set i (ScrapeTask.request url), tokens := s.tokens + 1 }
      else none
    | some (ScrapeTask.request url) =>
      some { s with tasks := s.tasks.set i (ScrapeTask.release (fetch url)) }
    | some (ScrapeTask.release resp) =>
      if 0 < s.tokens then
        some { s with tasks := s.tasks.set i (ScrapeTask.parse resp), tokens := s.tokens - 1 }
      else none
    | some (ScrapeTask.parse none) =>
      some { s with tasks := s.tasks.set i (ScrapeTask.record none) }
    | some (ScrapeTask.parse (some resp)) =>
      some { s with tasks := s.tasks.set i (ScrapeTask.record (parser resp)) }
    | some (ScrapeTask.record none) =>
      some { s with tasks := s.tasks.set i ScrapeTask.send }
    | some (ScrapeTask.record (some res)) =>
      some { s with tasks := s.tasks.set i ScrapeTask.send, results := s.results ++ [res] }
    | _ => none

/-- A task of `scrapeUrls` that holds a token: its fetch is in flight. -/
def ScrapeTask.inFlight : ScrapeTask → Bool
  | ScrapeTask.request _ => true
  | ScrapeTask.release _ => true
  | _ => false

/-- A task of `scrapeUrls` that is launched and not finished; its last
statement is the send on `worklist`. -/
def ScrapeTask.running : ScrapeTask → Bool
  | ScrapeTask.done => false
  | _ => true

/-- The number of fetches in flight. -/
def inFlight (s : ScrapeState) : Nat :=
  s.tasks.countP ScrapeTask.inFlight

/-- One for a pending seed batch, zero otherwise. -/
def seedCount (seed : Option (List GoString)) : Nat :=
  if seed.isSome then 1 else 0

/-- One while the main goroutine is inside the `range` loop over a received
batch (the `n--` of that batch is still to come), zero otherwise. -/
def inRange {ρ : Type} : MainPc ρ → Nat
  | MainPc.range _ => 1
  | _ => 0

/-! ### The steps as a relation, and counts along an execution -/

/-- The steps of `extractSitemapURLs`, case by case, with the stepping task
located by the tasks before and after it. -/
inductive ExtractMove (site : Site) : ExtractState → Act → ExtractState → Prop where
  | exit (s : ExtractState) : s.aborted = false → s.main = MainPc.recv → s.n ≤ 0 →
      ExtractMove site s Act.main { s with main := MainPc.returned s.toCrawl }
  | decrement (s : ExtractState) : s.aborted = false → s.main = MainPc.range [] →
      ExtractMove site s Act.main { s with n := s.n - 1, main := MainPc.recv }
  | launch (s : ExtractState) (link : GoString) (rest : List GoString) :
      s.aborted = false → s.main = MainPc.range (link :: rest) →
      ExtractMove site s Act.main
        { s with n := s.n + 1, tasks := s.tasks ++ [ExtractTask.fetch link],
                 main := MainPc.range rest }
  | seed (s : ExtractState) (batch : List GoString) :
      s.aborted = false → s.main = MainPc.recv → s.seed = some batch → 0 < s.n →
      ExtractMove site s Act.recvSeed { s with seed := none, main := MainPc.range batch }
  | receive (s : ExtractState) (pre post : List ExtractTask) (sitemapFiles : List GoString)
      (pages : Slice) :
      s.aborted = false → s.main = MainPc.recv → 0 < s.n →
      s.tasks = pre ++ ExtractTask.send (some sitemapFiles) pages :: post →
      ExtractMove site s (Act.recvTask pre.length)
        { s with tasks := pre ++ ExtractTask.append pages :: post,
                 main := MainPc.range sitemapFiles }
  | panic (s : ExtractState) (pre post : List ExtractTask) (link : GoString) :
      s.aborted = false → s.tasks = pre ++ ExtractTask.fetch link :: post →
      sitemapTaskFetch site link = none →
      ExtractMove site s (Act.task pre.length) { s with aborted := true }
  | fetch (s : ExtractState) (pre post : List ExtractTask) (link : GoString)
      (r : Slice × Slice) :
      s.aborted = false → s.tasks = pre ++ ExtractTask.fetch link :: post →
      sitemapTaskFetch site link = some r →
      ExtractMove site s (Act.task pre.length)
        { s with tasks := pre ++ ExtractTask.send r.1 r.2 :: post }
  | skip (s : ExtractState) (pre post : List ExtractTask) (pages : Slice) :
      s.aborted = false → s.tasks = pre ++ ExtractTask.send none pages :: post →
      ExtractMove site s (Act.task pre.length)
        { s with tasks := pre ++ ExtractTask.append pages :: post }
  | append (s : ExtractState) (pre post : List ExtractTask) (pages : Slice) :
      s.aborted = false → s.tasks = pre ++ ExtractTask.append pages :: post →
      ExtractMove site s (Act.task pre.length)
        { s with tasks := pre ++ ExtractTask.done :: post,
                 toCrawl := s.toCrawl ++ pages.elems }

/-- The steps of `scrapeUrls`, case by case. -/
inductive ScrapeMove (fetch : GoString → Option Response) (parser : Response → Option SeoData)
    (concurrency : Nat) : ScrapeState → Act → ScrapeState → Prop where
  | exit (s : ScrapeState) : s.main = MainPc.recv → s.n ≤ 0 →
      ScrapeMove fetch parser concurrency s Act.main { s with main := MainPc.returned s.results }
  | decrement (s : ScrapeState) : s.main = MainPc.range [] →
      ScrapeMove fetch parser concurrency s Act.main { s with n := s.n - 1, main := MainPc.recv }
  | launch (s : ScrapeState) (url : GoString) (rest : List GoString) :
      s.main = MainPc.range (url :: rest) → url ≠ [] →
      ScrapeMove fetch parser concurrency s Act.main
        { s with n := s.n + 1, tasks := s.tasks ++ [ScrapeTask.acquire url],
                 main := MainPc.range rest }
  | pass (s : ScrapeState) (rest : List GoString) :
      s.main = MainPc.range ([] :: rest) →
      ScrapeMove fetch parser concurrency s Act.main { s with main := MainPc.range rest }
  | seed (s : ScrapeState) (batch : List GoString) :
      s.main = MainPc.recv → s.seed = some batch → 0 < s.n →
      ScrapeMove fetch parser concurrency s Act.recvSeed
        { s with seed := none, main := MainPc.range batch }
  | receive (s : ScrapeState) (pre post : List ScrapeTask) :
      s.main = MainPc.recv → 0 < s.n → s.tasks = pre ++ ScrapeTask.send :: post →
      ScrapeMove fetch parser concurrency s (Act.recvTask pre.length)
        { s with tasks := pre ++ ScrapeTask.done :: post, main := MainPc.range [] }
  | acquire (s : ScrapeState) (pre post : List ScrapeTask) (url : GoString) :
      s.tasks = pre ++ ScrapeTask.acquire url :: post → s.tokens < concurrency →
      ScrapeMove fetch parser concurrency s (Act.task pre.length)
        { s with tasks := pre ++ ScrapeTask.request url :: post, tokens := s.tokens + 1 }
  | request (s : ScrapeState) (pre post : List ScrapeTask) (url : GoString) :
      s.tasks = pre ++ ScrapeTask.request url :: post →
      ScrapeMove fetch parser concurrency s (Act.task pre.length)
        { s with tasks := pre ++ ScrapeTask.release (fetch url) :: post }
  | release (s : ScrapeState) (pre post : List ScrapeTask) (resp : Option Response) :
      s.tasks = pre ++ ScrapeTask.release resp :: post → 0 < s.tokens →
      ScrapeMove fetch parser concurrency s (Act.task pre.length)
        { s with tasks := pre ++ ScrapeTask.parse resp :: post, tokens := s.tokens - 1 }
  | failed (s : ScrapeState) (pre post : List ScrapeTask) :
      s.tasks = pre ++ ScrapeTask.parse none :: post →
      ScrapeMove fetch parser concurrency s (Act.task pre.length)
        { s with tasks := pre ++ ScrapeTask.record none :: post }
  | parse (s : ScrapeState) (pre post : List ScrapeTask) (resp : Response) :
      s.tasks = pre ++ ScrapeTask.parse (some resp) :: post →
      ScrapeMove fetch parser concurrency s (Act.task pre.length)
        { s with tasks := pre ++ ScrapeTask.record (parser resp) :: post }
  | log (s : ScrapeState) (pre post : List ScrapeTask) :
      s.tasks = pre ++ ScrapeTask.record none :: post →
      ScrapeMove fetch parser concurrency s (Act.task pre.length)
        { s with tasks := pre ++ ScrapeTask.send :: post }
  | record (s : ScrapeState) (pre post : List ScrapeTask) (res : SeoData) :
      s.tasks = pre ++ ScrapeTask.record (some res) :: post →
      ScrapeMove fetch parser concurrency s (Act.task pre.length)
        { s with tasks := pre ++ ScrapeTask.send :: post, results := s.results ++ [res] }

/-- The number of steps of an execution that `flag` marks. -/
def tally {σ : Type} (step : σ → Act → Option σ) (flag : σ → Act → Bool) :
    σ → List Act → Nat
  | _, [] => 0
  | s, a :: as =>
    match step s a with
    | none => 0
    | some t => (if flag s a then 1 else 0) + tally step flag t as

/-- The step is a receive on `worklist`. -/
def isReceive : Act → Bool
  | Act.recvSeed => true
  | Act.recvTask _ => true
  | _ => false

/-- The step is the receive of the batch of a task. -/
def isTaskReceive : Act → Bool
  | Act.recvTask _ => true
  | _ => false

/-- The step is the `n--` that ends the `range` loop over a received batch. -/
def isDecrement {ρ : Type} : MainPc ρ → Act → Bool
  | MainPc.range [], Act.main => true
  | _, _ => false

/-- The step is an `n++` of `extractSitemapURLs`, with the launch of a task. -/
def isExtractLaunch : MainPc GoString → Act → Bool
  | MainPc.range (_ :: _), Act.main => true
  | _, _ => false

/-- The step is an `n++` of `scrapeUrls`, with the launch of a task: the
element visited is not the empty string. -/
def isScrapeLaunch : MainPc SeoData → Act → Bool
  | MainPc.range (url :: _), Act.main => !url.isEmpty
  | _, _ => false

/-! ### The number of steps `extractSitemapURLs` has left -/

/-- The steps caused by one link, from its launch to the end of its task and
of the tasks below it, for a tree of at most `d` levels. -/
def linkWeight (site : Site) : Nat → GoString → Nat
  | 0, _ => 4
  | d + 1, link => 4 + ((nestedSitemaps site link).map (fun c => 1 + linkWeight site d c)).sum

/-- The steps caused by the links of a batch. -/
def batchWeight (site : Site) (d : Nat) (batch : List GoString) : Nat :=
  (batch.map (fun c => 1 + linkWeight site d c)).sum

/-- The steps a task and the tasks it causes have left. -/
def taskWeight (site : Site) (d : Nat) : ExtractTask → Nat
  | ExtractTask.fetch link => linkWeight site d link
  | ExtractTask.send (some sitemapFiles) _ => 3 + batchWeight site d sitemapFiles
  | ExtractTask.send none _ => 2
  | ExtractTask.append _ => 1
  | ExtractTask.done => 0

/-- The steps the main goroutine has left by itself. -/
def mainWeight (site : Site) (d : Nat) : MainPc GoString → Nat
  | MainPc.recv => 1
  | MainPc.range rest => 2 + batchWeight site d rest
  | MainPc.returned _ => 0

/-- The steps the seed batch causes. -/
def seedWeight (site : Site) (d : Nat) : Option (List GoString) → Nat
  | none => 0
  | some batch => 2 + batchWeight site d batch

/-- A bound on the number of steps left in a state of `extractSitemapURLs`:
none once the process is killed. -/
def stepsLeft (site : Site) (d : Nat) (s : ExtractState) : Nat :=
  if s.aborted then 0
  else
    mainWeight site d s.main + seedWeight site d s.seed
      + (s.tasks.map (taskWeight site d)).sum

/-- The links a task still holds lie in trees of at most `d` levels. -/
def taskDepthOK (site : Site) (d : Nat) : ExtractTask → Prop
  | ExtractTask.fetch link => treeDepthLE site d link = true
  | ExtractTask.send (some sitemapFiles) _ => ∀ c ∈ sitemapFiles, treeDepthLE site d c = true
  | _ => True

/-- The links the main goroutine still holds lie in trees of at most `d`
levels. -/
def mainDepthOK (site : Site) (d : Nat) : MainPc GoString → Prop
  | MainPc.range rest => ∀ c ∈ rest, treeDepthLE site d c = true
  | _ => True

/-- Every link of the state lies in a tree of at most `d` levels. -/
def DepthOK (site : Site) (d : Nat) (s : ExtractState) : Prop :=
  mainDepthOK site d s.main
  ∧ (∀ batch, s.seed = some batch → ∀ c ∈ batch, treeDepthLE site d c = true)
  ∧ ∀ t ∈ s.tasks, taskDepthOK site d t

/-! ### What holds in every state of the two engines -/

/-- The facts that hold in every state of `scrapeUrls`. -/
def ScrapeInv (k : Nat) (s : ScrapeState) : Prop :=
  inFlight s = s.tokens ∧ s.tokens ≤ k
  ∧ s.n = ((seedCount s.seed + s.tasks.countP ScrapeTask.running + inRange s.main : Nat) : Int)

/-- The goroutines of `extractSitemapURLs` (the seeding one and the tasks)
whose batch the main goroutine has not received yet. -/
def extractPending (s : ExtractState) : Nat :=
  seedCount s.seed + s.tasks.countP ExtractTask.undelivered

/-- The goroutines of `scrapeUrls` (the seeding one and the tasks) whose batch
the main goroutine has not received yet: the send is a task's last statement,
so these are the seeding goroutine and the tasks that are not finished. -/
def scrapePending (s : ScrapeState) : Nat :=
  seedCount s.seed + s.tasks.countP ScrapeTask.running

/-- The batch a task is about to send is not the nil slice. -/
def ExtractTask.batchNonNil : ExtractTask → Prop
  | ExtractTask.send none _ => False
  | _ => True

/-- The counter of `extractSitemapURLs` counts the batches not yet received,
and the received batch whose `n--` is still to come; no task holds a nil
batch; when the process is killed, the task that panicked has not delivered a
batch. -/
def ExtractInv (s : ExtractState) : Prop :=
  s.n = ((extractPending s + inRange s.main : Nat) : Int)
  ∧ (∀ t ∈ s.tasks, ExtractTask.batchNonNil t)
  ∧ (s.aborted = true → 0 < s.tasks.countP ExtractTask.undelivered)

/-- The main goroutine of `extractSitemapURLs` can leave its loop now. -/
def extractExits (site : Site) (s : ExtractState) : Prop :=
  ∃ t result, extractStep site s Act.main = some t ∧ t.main = MainPc.returned result

/-- The main goroutine of `scrapeUrls` can leave its loop now. -/
def scrapeExits (fetch : GoString → Option Response) (parser : Response → Option SeoData)
    (concurrency : Nat) (s : ScrapeState) : Prop :=
  ∃ t result, scrapeStep fetch parser concurrency s Act.main = some t
    ∧ t.main = MainPc.returned result

/-! ### Sites and inputs used as examples -/

/-- The `loc` texts of the example sites: the body of a response, cut at every
`|`. -/
def barSeparated (r : Response) : Option (List GoString) :=
  r.Body.map (Split '|')

/-- A site whose sitemap lists one page. -/
def onePageSite : Site :=
  siteOf (fun _ => true)
    (fun req =>
      if req.url = "https://a.test/sitemap.xml".toList then
        some { StatusCode := 200, Body := some "https://a.test/p1".toList }
      else none)
    [] barSeparated

/-- A site whose sitemap lists a nested sitemap, with a newline at the end of
the `loc` text, and a page; every request that reaches the client is
answered. -/
def refusedLocSite : Site :=
  siteOf (fun _ => true)
    (fun req =>
      if req.url = "https://a.test/sitemap.xml".toList then
        some { StatusCode := 200,
               Body := some "https://a.test/a.xml\n|https://a.test/p0".toList }
      else some { StatusCode := 200, Body := some [] })
    [] barSeparated

/-- An interleaving of `extractSitemapURLs` on `refusedLocSite`: the root is
fetched and its batch received, the task of the nested sitemap is launched and
runs `makeRequest`. -/
def refusedLocActs : List Act :=
  [Act.recvSeed, Act.main, Act.main, Act.task 0, Act.recvTask 0, Act.main, Act.main,
   Act.task 1]

/-- The state `refusedLocActs` leads to. -/
def refusedLocState : ExtractState :=
  { n := 1, main := MainPc.recv, seed := none,
    tasks := [ExtractTask.append (some ["https://a.test/p0".toList]),
              ExtractTask.fetch "https://a.test/a.xml\n".toList],
    toCrawl := [], aborted := true }

/-- The URLs of the example run of `scrapeUrls`. -/
def twoPages : List GoString := ["https://a.test/p1".toList, "https://a.test/p2".toList]

/-- An interleaving of `scrapeUrls` on two pages with one token: both tasks
are launched, the first takes the token and its request fails. -/
def twoPagesActs : List Act :=
  [Act.recvSeed, Act.main, Act.main, Act.task 0, Act.task 0]

/-- The state `twoPagesActs` leads to. -/
def twoPagesState : ScrapeState :=
  { n := 3, main := MainPc.range [], seed := none,
    tasks := [ScrapeTask.release none, ScrapeTask.acquire "https://a.test/p2".toList],
    tokens := 1, results := [] }

/-- The root sitemap of the example sites. -/
def siteRoot : GoString := "https://a.test/sitemap.xml".toList

/-- An interleaving of `extractSitemapURLs` on `onePageSite` in which the main
goroutine receives the batch of the only task and leaves its loop before that
task appends its pages. -/
def earlyReturnActs : List Act :=
  [Act.recvSeed, Act.main, Act.main, Act.task 0, Act.recvTask 0, Act.main, Act.main]

/-- The state `earlyReturnActs` leads to. -/
def earlyReturnState : ExtractState :=
  { n := 0, main := MainPc.returned [], seed := none,
    tasks := [ExtractTask.append (some ["https://a.test/p1".toList])], toCrawl := [],
    aborted := false }

/-! # Theorems -/

/-! ## Strings and the classifier -/

theorem HasPrefix_iff (s p : GoString) : HasPrefix s p = true ↔ p <+: s := by
  induction s generalizing p with
  | nil =>
    cases p with
    | nil => simp [HasPrefix]
    | cons d p => simp [HasPrefix]
  | cons c s ih =>
    cases p with
    | nil => simp [HasPrefix]
    | cons d p =>
      simp only [HasPrefix, Bool.and_eq_true, beq_iff_eq, ih, List.cons_prefix_cons]
      constructor
      · rintro ⟨h1, h2⟩
        exact ⟨h1.symm, h2⟩
      · rintro ⟨h1, h2⟩
        exact ⟨h1.symm, h2⟩

theorem Contains_iff (s sub : GoString) : Contains s sub = true ↔ sub <:+: s := by
  induction s with
  | nil =>
    simp only [Contains, HasPrefix_iff]
    constructor
    · intro h
      exact h.isInfix
    · intro h
      have := List.eq_nil_of_infix_nil h
      subst this
      exact List.prefix_refl _
  | cons c s ih =>
    simp only [Contains, Bool.or_eq_true, HasPrefix_iff, ih, List.infix_cons_iff]

theorem classify_foldl (p : GoString → Bool) (urls a b : List GoString) :
    urls.foldl
      (fun (acc : Slice × Slice) page =>
        if p page then (goAppend acc.1 page, acc.2) else (acc.1, goAppend acc.2 page))
      (some a, some b)
    = (some (a ++ urls.filter p), some (b ++ urls.filter (fun u => !p u))) := by
  induction urls generalizing a b with
  | nil => simp
  | cons u us ih =>
    have ga : ∀ (l : List GoString), goAppend (some l) u = some (l ++ [u]) := fun _ => rfl
    by_cases h : p u = true
    · rw [List.foldl_cons]
      simp only [h, if_true, ga]
      rw [ih]
      simp [List.filter_cons, h]
    · have h2 : p u = false := by simpa using h
      rw [List.foldl_cons]
      simp only [h2, ga, Bool.false_eq_true, if_false]
      rw [ih]
      simp [List.filter_cons, h2]

theorem isSitemap_eq_filter (urls : List GoString) :
    isSitemap urls = (some (urls.filter hasXml), some (urls.filter (fun u => !hasXml u))) := by
  have h := classify_foldl hasXml urls [] []
  simp only [List.nil_append] at h
  exact h

theorem mergeByFlags_filter (urls : List GoString) :
    mergeByFlags (urls.map hasXml) (urls.filter hasXml) (urls.filter (fun u => !hasXml u))
      = urls := by
  induction urls with
  | nil => simp [mergeByFlags]
  | cons u us ih =>
    by_cases h : hasXml u = true
    · simp [h, mergeByFlags, ih]
    · have h2 : hasXml u = false := by simpa using h
      simp [h2, mergeByFlags, ih]

/-- C1: `isSitemap` returns as `sitemapFiles` exactly the URLs of the input
that have `xml` as a substring and as `pages` exactly the other URLs, each in
the order of the input; the test is case-sensitive, a URL with `XML` only is
a page. -/
theorem isSitemap_classifies (urls : List GoString) :
    isSitemap urls =
      (some (urls.filter (fun u => decide ("xml".toList <:+: u))),
       some (urls.filter (fun u => !decide ("xml".toList <:+: u))))
    ∧ List.Sublist (isSitemap urls).1.elems urls
    ∧ List.Sublist (isSitemap urls).2.elems urls
    ∧ isSitemap ["https://a.test/SITE.XML".toList] =
        (some [], some ["https://a.test/SITE.XML".toList]) := by
  have hp : (fun u : GoString => decide ("xml".toList <:+: u)) = hasXml := by
    funext u
    rw [Bool.eq_iff_iff]
    simp only [decide_eq_true_eq, hasXml]
    exact (Contains_iff u "xml".toList).symm
  have hq : (fun u : GoString => !decide ("xml".toList <:+: u)) = (fun u => !hasXml u) := by
    funext u
    rw [← hp]
  refine ⟨?_, ?_, ?_, by decide⟩
  · rw [hp, hq]
    exact isSitemap_eq_filter urls
  · rw [isSitemap_eq_filter]
    exact List.filter_sublist _
  · rw [isSitemap_eq_filter]
    exact List.filter_sublist _

/-- C9: the two lists `isSitemap` returns have no URL in common, their
concatenation is a permutation of the input, their lengths add up to the
length of the input, and merging them back in the original relative order
gives the input. -/
theorem isSitemap_partition (urls : List GoString) :
    List.Disjoint (isSitemap urls).1.elems (isSitemap urls).2.elems
    ∧ List.Perm ((isSitemap urls).1.elems ++ (isSitemap urls).2.elems) urls
    ∧ (isSitemap urls).1.elems.length + (isSitemap urls).2.elems.length = urls.length
    ∧ mergeByFlags (urls.map (fun u => Contains u "xml".toList))
        (isSitemap urls).1.elems (isSitemap urls).2.elems = urls := by
  rw [isSitemap_eq_filter]
  simp only [Slice.elems]
  have hperm : List.Perm (urls.filter hasXml ++ urls.filter (fun u => !hasXml u)) urls :=
    List.filter_append_perm hasXml urls
  refine ⟨?_, hperm, ?_, ?_⟩
  · intro u h1 h2
    have a1 := (List.mem_filter.1 h1).2
    have a2 := (List.mem_filter.1 h2).2
    simp [a1] at a2
  · have := hperm.length_eq
    simpa using this
  · exact mergeByFlags_filter urls

/-! ## `parseRobotsTxt`, `findSitemap`, `makeRequest` -/

/-- C2: on the body with the lines `Sitemap: /foo.xml` and
`Sitemap: https://other.test/bar.xml`, `parseRobotsTxt` returns, for every
`baseURL`, the entry `baseURL ++ "/foo.xml"` followed by the entry `https`,
which is not the list the property names: the absolute URL is cut at its
colon. -/
theorem parseRobotsTxt_two_lines (baseURL : GoString) :
    parseRobotsTxt "Sitemap: /foo.xml\nSitemap: https://other.test/bar.xml".toList baseURL
      = [baseURL ++ "/foo.xml".toList, "https".toList]
    ∧ parseRobotsTxt "Sitemap: /foo.xml\nSitemap: https://other.test/bar.xml".toList baseURL
      ≠ [baseURL ++ "/foo.xml".toList, "https://other.test/bar.xml".toList] := by
  have h : parseRobotsTxt
      "Sitemap: /foo.xml\nSitemap: https://other.test/bar.xml".toList baseURL
      = [baseURL ++ "/foo.xml".toList, "https".toList] := by rfl
  refine ⟨h, ?_⟩
  rw [h]
  intro hc
  have h2 := (List.cons.inj (List.cons.inj hc).2).1
  exact absurd h2 (by decide)

/-- C3: on the one-line body `Sitemap: https://other.test:8080/sitemap.xml`
the code returns the entry `https`, the text between the first and the second
colon, where the property gives the whole text after the first colon. -/
theorem parseRobotsTxt_cuts_at_second_colon :
    parseRobotsTxt "Sitemap: https://other.test:8080/sitemap.xml".toList
        "https://example.com".toList = ["https".toList]
    ∧ specParseRobotsTxt "Sitemap: https://other.test:8080/sitemap.xml".toList
        "https://example.com".toList = ["https://other.test:8080/sitemap.xml".toList] := by
  decide

/-- C4, as stated, fails: a fetcher answering every request with status 204
is given no root at all, although 204 is a 2xx status. -/
theorem findSitemap_rejects_204 :
    ¬ (∀ (fetch : GoString → Option Response) (baseURL path : GoString) (resp : Response),
        path ∈ ["/sitemap.xml".toList, "/sitemap_index.xml".toList, "/sitemap1.xml".toList] →
        fetch (baseURL ++ path) = some resp →
        200 ≤ resp.StatusCode → resp.StatusCode ≤ 299 →
        baseURL ++ path ∈ findSitemap fetch baseURL) := by
  intro h
  have h1 := h (fun _ => some { StatusCode := 204, Body := none }) "https://example.com".toList
    "/sitemap.xml".toList { StatusCode := 204, Body := none } (by decide) rfl (by decide)
    (by decide)
  have h2 : findSitemap (fun _ => some { StatusCode := 204, Body := none })
      "https://example.com".toList = [] := by decide
  rw [h2] at h1
  exact absurd h1 (by simp)

/-- C4, amended: `findSitemap` returns, in probe order, `baseURL ++ path` for
each of `/sitemap.xml`, `/sitemap_index.xml`, `/sitemap1.xml` whose request
returns a response with status code 200 (the body is not looked at; a failed
request or any other status contributes nothing), followed by the entries of
`/robots.txt`. -/
theorem findSitemap_roots (fetch : GoString → Option Response) (baseURL : GoString) :
    findSitemap fetch baseURL =
      probeRoot fetch baseURL "/sitemap.xml".toList
      ++ probeRoot fetch baseURL "/sitemap_index.xml".toList
      ++ probeRoot fetch baseURL "/sitemap1.xml".toList
      ++ robotsRoots fetch baseURL := by
  have hs : ∀ (acc : List GoString) (path : GoString), path ≠ "/robots.txt".toList →
      findSitemapStep fetch baseURL acc path = acc ++ probeRoot fetch baseURL path := by
    intro acc path hp
    unfold findSitemapStep probeRoot
    generalize "/robots.txt".toList = R at hp
    cases hf : fetch (baseURL ++ path) with
    | none => simp [hf]
    | some resp =>
      by_cases hc : resp.StatusCode = 200
      · simp [hf, hc, hp]
      · simp [hf, hc]
  have hr : ∀ (acc : List GoString),
      findSitemapStep fetch baseURL acc "/robots.txt".toList
        = acc ++ robotsRoots fetch baseURL := by
    intro acc
    unfold findSitemapStep robotsRoots
    generalize "/robots.txt".toList = R
    cases hf : fetch (baseURL ++ R) with
    | none => simp [hf]
    | some resp =>
      by_cases hc : resp.StatusCode = 200
      · cases hb : resp.Body with
        | none => simp [hf, hc, hb]
        | some body => simp [hf, hc, hb]
      · simp [hf, hc]
  unfold findSitemap commonPaths
  simp only [List.foldl_cons, List.foldl_nil]
  rw [hr, hs _ _ (by decide), hs _ _ (by decide), hs _ _ (by decide)]
  simp

/-- C7: for a URL with an embedded newline, from which no request can be
built, `makeRequest` aborts the process instead of returning the error: it
uses the nil request before it tests `err`. -/
theorem makeRequest_aborts_on_bad_url (parseRest : GoString → Bool)
    (clientDo : Request → Option Response) (userAgent : GoString) :
    makeRequest parseRest clientDo userAgent "https://example.com/page\n".toList
      = Outcome.abort := by
  have hc : stringContainsCTLByte "https://example.com/page\n".toList = true := by decide
  have h : NewRequest parseRest "https://example.com/page\n".toList = none := by
    unfold NewRequest
    rw [if_pos hc]
  unfold makeRequest
  rw [h]

/-! ## The step functions, case by case -/

theorem getElem?_split {α : Type} (l : List α) (i : Nat) (a : α) (h : l[i]? = some a) :
    ∃ pre post, l = pre ++ a :: post ∧ pre.length = i ∧ ∀ b, l.set i b = pre ++ b :: post := by
  induction l generalizing i with
  | nil => simp at h
  | cons x xs ih =>
    cases i with
    | zero =>
      simp at h
      subst h
      exact ⟨[], xs, rfl, rfl, fun b => rfl⟩
    | succ j =>
      simp at h
      obtain ⟨pre, post, h1, h2, h3⟩ := ih j h
      refine ⟨x :: pre, post, ?_, ?_, ?_⟩
      · simp [h1]
      · simp [h2]
      · intro b
        simp [h3]

theorem getElem?_middle {α : Type} (pre post : List α) (a : α) :
    (pre ++ a :: post)[pre.length]? = some a := by
  induction pre with
  | nil => simp
  | cons x xs ih => simpa using ih

theorem set_middle {α : Type} (pre post : List α) (a b : α) :
    (pre ++ a :: post).set pre.length b = pre ++ b :: post := by
  simp

theorem extractStep_move {site : Site} {s t : ExtractState} {a : Act}
    (h : extractStep site s a = some t) : ExtractMove site s a t := by
  have hab : s.aborted = false := by
    cases hb : s.aborted with
    | false => rfl
    | true => simp [extractStep, hb] at h
  unfold extractStep at h
  rw [if_neg (by simp [hab])] at h
  cases a with
  | main =>
    simp only at h
    split at h
    · rename_i hm
      split at h
      · exact absurd h (by simp)
      · rename_i hn
        injection h with h
        subst h
        exact ExtractMove.exit s hab hm (by omega)
    · rename_i hm
      injection h with h
      subst h
      exact ExtractMove.decrement s hab hm
    · rename_i link rest hm
      injection h with h
      subst h
      exact ExtractMove.launch s link rest hab hm
    · exact absurd h (by simp)
  | recvSeed =>
    simp only at h
    split at h
    · rename_i batch hm hs
      split at h
      · rename_i hn
        injection h with h
        subst h
        exact ExtractMove.seed s batch hab hm hs hn
      · exact absurd h (by simp)
    · exact absurd h (by simp)
  | recvTask i =>
    simp only at h
    split at h
    · rename_i sm pages hm ht
      split at h
      · rename_i hn
        injection h with h
        subst h
        obtain ⟨pre, post, h1, h2, h3⟩ := getElem?_split _ _ _ ht
        subst h2
        rw [h3]
        exact ExtractMove.receive s pre post sm pages hab hm hn h1
      · exact absurd h (by simp)
    · exact absurd h (by simp)
  | task i =>
    simp only at h
    split at h
    · rename_i link ht
      obtain ⟨pre, post, h1, h2, h3⟩ := getElem?_split _ _ _ ht
      subst h2
      split at h
      · rename_i hf
        injection h with h
        subst h
        exact ExtractMove.panic s pre post link hab h1 hf
      · rename_i r hf
        injection h with h
        subst h
        rw [h3]
        exact ExtractMove.fetch s pre post link r hab h1 hf
    · rename_i pages ht
      injection h with h
      subst h
      obtain ⟨pre, post, h1, h2, h3⟩ := getElem?_split _ _ _ ht
      subst h2
      rw [h3]
      exact ExtractMove.skip s pre post pages hab h1
    · rename_i pages ht
      injection h with h
      subst h
      obtain ⟨pre, post, h1, h2, h3⟩ := getElem?_split _ _ _ ht
      subst h2
      rw [h3]
      exact ExtractMove.append s pre post pages hab h1
    · exact absurd h (by simp)

theorem extractMove_step {site : Site} {s t : ExtractState} {a : Act}
    (h : ExtractMove site s a t) : extractStep site s a = some t := by
  cases h with
  | exit hab hm hn => simp [extractStep, hab, hm, not_lt.2 hn]
  | decrement hab hm => simp [extractStep, hab, hm]
  | launch link rest hab hm => simp [extractStep, hab, hm]
  | seed batch hab hm hs hn => simp [extractStep, hab, hm, hs, hn]
  | receive pre post sm pages hab hm hn ht =>
    simp only [extractStep, hab, hm, ht, getElem?_middle, set_middle]
    simp [hn]
  | panic pre post link hab ht hf =>
    simp only [extractStep, hab, ht, getElem?_middle, hf]
    simp
  | fetch pre post link r hab ht hf =>
    simp only [extractStep, hab, ht, getElem?_middle, set_middle, hf]
    simp
  | skip pre post pages hab ht =>
    simp only [extractStep, hab, ht, getElem?_middle, set_middle]
    simp
  | append pre post pages hab ht =>
    simp only [extractStep, hab, ht, getElem?_middle, set_middle]
    simp

theorem extractStep_aborted (site : Site) (s : ExtractState) (a : Act)
    (h : s.aborted = true) : extractStep site s a = none := by
  simp [extractStep, h]

theorem scrapeStep_move {fetch : GoString → Option Response} {parser : Response → Option SeoData}
    {k : Nat} {s t : ScrapeState} {a : Act}
    (h : scrapeStep fetch parser k s a = some t) : ScrapeMove fetch parser k s a t := by
  cases a with
  | main =>
    simp only [scrapeStep] at h
    split at h
    · rename_i hm
      split at h
      · exact absurd h (by simp)
      · rename_i hn
        injection h with h
        subst h
        exact ScrapeMove.exit s hm (by omega)
    · rename_i hm
      injection h with h
      subst h
      exact ScrapeMove.decrement s hm
    · rename_i url rest hm
      split at h
      · rename_i hu
        injection h with h
        subst h
        exact ScrapeMove.launch s url rest hm hu
      · rename_i hu
        injection h with h
        subst h
        have hu2 : url = [] := by simpa using hu
        subst hu2
        exact ScrapeMove.pass s rest hm
    · exact absurd h (by simp)
  | recvSeed =>
    simp only [scrapeStep] at h
    split at h
    · rename_i batch hm hs
      split at h
      · rename_i hn
        injection h with h
        subst h
        exact ScrapeMove.seed s batch hm hs hn
      · exact absurd h (by simp)
    · exact absurd h (by simp)
  | recvTask i =>
    simp only [scrapeStep] at h
    split at h
    · rename_i hm ht
      split at h
      · rename_i hn
        injection h with h
        subst h
        obtain ⟨pre, post, h1, h2, h3⟩ := getElem?_split _ _ _ ht
        subst h2
        rw [h3]
        exact ScrapeMove.receive s pre post hm hn h1
      · exact absurd h (by simp)
    · exact absurd h (by simp)
  | task i =>
    simp only [scrapeStep] at h
    split at h
    · rename_i url ht
      obtain ⟨pre, post, h1, h2, h3⟩ := getElem?_split _ _ _ ht
      subst h2
      split at h
      · rename_i hk
        injection h with h
        subst h
        rw [h3]
        exact ScrapeMove.acquire s pre post url h1 hk
      · exact absurd h (by simp)
    · rename_i url ht
      obtain ⟨pre, post, h1, h2, h3⟩ := getElem?_split _ _ _ ht
      subst h2
      injection h with h
      subst h
      rw [h3]
      exact ScrapeMove.request s pre post url h1
    · rename_i resp ht
      obtain ⟨pre, post, h1, h2, h3⟩ := getElem?_split _ _ _ ht
      subst h2
      split at h
      · rename_i hk
        injection h with h
        subst h
        rw [h3]
        exact ScrapeMove.release s pre post resp h1 hk
      · exact absurd h (by simp)
    · rename_i ht
      obtain ⟨pre, post, h1, h2, h3⟩ := getElem?_split _ _ _ ht
      subst h2
      injection h with h
      subst h
      rw [h3]
      exact ScrapeMove.failed s pre post h1
    · rename_i resp ht
      obtain ⟨pre, post, h1, h2, h3⟩ := getElem?_split _ _ _ ht
      subst h2
      injection h with h
      subst h
      rw [h3]
      exact ScrapeMove.parse s pre post resp h1
    · rename_i ht
      obtain ⟨pre, post, h1, h2, h3⟩ := getElem?_split _ _ _ ht
      subst h2
      injection h with h
      subst h
      rw [h3]
      exact ScrapeMove.log s pre post h1
    · rename_i res ht
      obtain ⟨pre, post, h1, h2, h3⟩ := getElem?_split _ _ _ ht
      subst h2
      injection h with h
      subst h
      rw [h3]
      exact ScrapeMove.record s pre post res h1
    · exact absurd h (by simp)

theorem scrapeMove_step {fetch : GoString → Option Response} {parser : Response → Option SeoData}
    {k : Nat} {s t : ScrapeState} {a : Act}
    (h : ScrapeMove fetch parser k s a t) : scrapeStep fetch parser k s a = some t := by
  cases h with
  | exit hm hn => simp [scrapeStep, hm, not_lt.2 hn]
  | decrement hm => simp [scrapeStep, hm]
  | launch url rest hm hu => simp [scrapeStep, hm, hu]
  | pass rest hm => simp [scrapeStep, hm]
  | seed batch hm hs hn => simp [scrapeStep, hm, hs, hn]
  | receive pre post hm hn ht =>
    simp only [scrapeStep, hm, ht, getElem?_middle, set_middle]
    simp [hn]
  | acquire pre post url ht hk =>
    simp only [scrapeStep, ht, getElem?_middle, set_middle]
    simp [hk]
  | request pre post url ht => simp only [scrapeStep, ht, getElem?_middle, set_middle]
  | release pre post resp ht hk =>
    simp only [scrapeStep, ht, getElem?_middle, set_middle]
    simp [hk]
  | failed pre post ht => simp only [scrapeStep, ht, getElem?_middle, set_middle]
  | parse pre post resp ht => simp only [scrapeStep, ht, getElem?_middle, set_middle]
  | log pre post ht => simp only [scrapeStep, ht, getElem?_middle, set_middle]
  | record pre post res ht => simp only [scrapeStep, ht, getElem?_middle, set_middle]

/-! ## Executions -/

theorem runFrom_invariant {σ : Type} (step : σ → Act → Option σ) (P : σ → Prop)
    (hstep : ∀ s a t, P s → step s a = some t → P t) :
    ∀ (acts : List Act) (s t : σ), P s → runFrom step s acts = some t → P t := by
  intro acts
  induction acts with
  | nil =>
    intro s t hs h
    simp only [runFrom] at h
    injection h with h
    subst h
    exact hs
  | cons a as ih =>
    intro s t hs h
    simp only [runFrom] at h
    cases hsa : step s a with
    | none => rw [hsa] at h; exact absurd h (by simp)
    | some u =>
      rw [hsa] at h
      exact ih u t (hstep s a u hs hsa) h

/-! ## `scrapeUrls`: tokens and the counter -/

theorem scrapeInv_init (k : Nat) (urls : List GoString) : ScrapeInv k (scrapeInit urls) := by
  refine ⟨rfl, Nat.zero_le _, ?_⟩
  simp [scrapeInit, seedCount, inRange]

theorem scrapeInv_step {fetch : GoString → Option Response}
    {parser : Response → Option SeoData} {k : Nat} {s t : ScrapeState} {a : Act}
    (hi : ScrapeInv k s) (h : ScrapeMove fetch parser k s a t) : ScrapeInv k t := by
  obtain ⟨h1, h2, h3⟩ := hi
  unfold ScrapeInv inFlight at *
  cases h with
  | exit hm hn =>
    simp only [hm, inRange] at h3 ⊢
    exact ⟨h1, h2, by omega⟩
  | decrement hm =>
    simp only [hm, inRange] at h3 ⊢
    exact ⟨h1, h2, by omega⟩
  | launch url rest hm hu =>
    simp only [hm, inRange] at h3 ⊢
    refine ⟨?_, h2, ?_⟩
    · simpa [List.countP_append, ScrapeTask.inFlight] using h1
    · simp [List.countP_append, ScrapeTask.running]
      omega
  | pass rest hm =>
    simp only [hm, inRange] at h3 ⊢
    exact ⟨h1, h2, h3⟩
  | seed batch hm hs hn =>
    simp only [hm, hs, inRange, seedCount] at h3 ⊢
    refine ⟨h1, h2, ?_⟩
    simp at h3 ⊢
    omega
  | receive pre post hm hn ht =>
    simp only [hm, ht, inRange] at h1 h3 ⊢
    simp [List.countP_append, List.countP_cons, ScrapeTask.inFlight, ScrapeTask.running] at h1 h3 ⊢
    exact ⟨h1, h2, by omega⟩
  | acquire pre post url ht hk =>
    simp only [ht] at h1 h3 ⊢
    simp [List.countP_append, List.countP_cons, ScrapeTask.inFlight, ScrapeTask.running] at h1 h3 ⊢
    exact ⟨by omega, by omega, by omega⟩
  | request pre post url ht =>
    simp only [ht] at h1 h3 ⊢
    simp [List.countP_append, List.countP_cons, ScrapeTask.inFlight, ScrapeTask.running] at h1 h3 ⊢
    exact ⟨by omega, by omega, by omega⟩
  | release pre post resp ht hk =>
    simp only [ht] at h1 h3 ⊢
    simp [List.countP_append, List.countP_cons, ScrapeTask.inFlight, ScrapeTask.running] at h1 h3 ⊢
    exact ⟨by omega, by omega, by omega⟩
  | failed pre post ht =>
    simp only [ht] at h1 h3 ⊢
    simp [List.countP_append, List.countP_cons, ScrapeTask.inFlight, ScrapeTask.running] at h1 h3 ⊢
    exact ⟨by omega, by omega, by omega⟩
  | parse pre post resp ht =>
    simp only [ht] at h1 h3 ⊢
    simp [List.countP_append, List.countP_cons, ScrapeTask.inFlight, ScrapeTask.running] at h1 h3 ⊢
    exact ⟨by omega, by omega, by omega⟩
  | log pre post ht =>
    simp only [ht] at h1 h3 ⊢
    simp [List.countP_append, List.countP_cons, ScrapeTask.inFlight, ScrapeTask.running] at h1 h3 ⊢
    exact ⟨by omega, by omega, by omega⟩
  | record pre post res ht =>
    simp only [ht] at h1 h3 ⊢
    simp [List.countP_append, List.countP_cons, ScrapeTask.inFlight, ScrapeTask.running] at h1 h3 ⊢
    exact ⟨by omega, by omega, by omega⟩

theorem scrapeInv_run {fetch : GoString → Option Response}
    {parser : Response → Option SeoData} {k : Nat} {urls : List GoString} {acts : List Act}
    {s : ScrapeState}
    (h : runFrom (scrapeStep fetch parser k) (scrapeInit urls) acts = some s) :
    ScrapeInv k s :=
  runFrom_invariant (scrapeStep fetch parser k) (ScrapeInv k)
    (fun _ _ _ hs hst => scrapeInv_step hs (scrapeStep_move hst))
    acts (scrapeInit urls) s (scrapeInv_init k urls) h

theorem sitemapTaskFetch_fst (site : Site) (link : GoString) (r : Slice × Slice)
    (h : sitemapTaskFetch site link = some r) :
    r.1 = some (nestedSitemaps site link) := by
  unfold nestedSitemaps
  rw [h]
  unfold sitemapTaskFetch at h
  split at h
  · exact absurd h (by simp)
  · injection h with h
    subst h
    simp only [isSitemap_eq_filter, Slice.elems]
  · injection h with h
    subst h
    simp only [isSitemap_eq_filter, Slice.elems]

theorem extractInv_init (startURL : GoString) : ExtractInv (extractInit startURL) := by
  refine ⟨?_, ?_, ?_⟩
  · simp [extractInit, extractPending, seedCount, inRange]
  · intro t ht
    simp [extractInit] at ht
  · intro h
    simp [extractInit] at h

theorem extractInv_step {site : Site} {s t : ExtractState} {a : Act}
    (hi : ExtractInv s) (h : ExtractMove site s a t) : ExtractInv t := by
  obtain ⟨hi, hb, _⟩ := hi
  unfold ExtractInv extractPending at *
  cases h with
  | exit hab hm hn =>
    simp only [hm, inRange] at hi ⊢
    exact ⟨by omega, hb, fun h => absurd h (by simp [hab])⟩
  | decrement hab hm =>
    simp only [hm, inRange] at hi ⊢
    exact ⟨by omega, hb, fun h => absurd h (by simp [hab])⟩
  | launch link rest hab hm =>
    simp only [hm, inRange] at hi ⊢
    refine ⟨?_, ?_, fun h => absurd h (by simp [hab])⟩
    · simp [List.countP_append, ExtractTask.undelivered]
      omega
    · intro t ht
      rcases List.mem_append.1 ht with h1 | h1
      · exact hb t h1
      · simp at h1
        subst h1
        trivial
  | seed batch hab hm hs hn =>
    simp only [hm, hs, inRange, seedCount] at hi ⊢
    refine ⟨?_, hb, fun h => absurd h (by simp [hab])⟩
    simp at hi ⊢
    omega
  | receive pre post sm pages hab hm hn ht =>
    simp only [hm, ht, inRange] at hi hb ⊢
    refine ⟨?_, ?_, fun h => absurd h (by simp [hab])⟩
    · simp [List.countP_append, List.countP_cons, ExtractTask.undelivered] at hi ⊢
      omega
    · intro t h1
      simp only [List.mem_append, List.mem_cons] at h1 hb
      rcases h1 with h1 | h1 | h1
      · exact hb t (Or.inl h1)
      · subst h1; trivial
      · exact hb t (Or.inr (Or.inr h1))
  | panic pre post link hab ht hf =>
    refine ⟨hi, hb, fun _ => ?_⟩
    simp only [ht]
    simp [List.countP_append, List.countP_cons, ExtractTask.undelivered]
  | fetch pre post link r hab ht hf =>
    simp only [ht] at hi hb ⊢
    refine ⟨?_, ?_, fun h => absurd h (by simp [hab])⟩
    · simp [List.countP_append, List.countP_cons, ExtractTask.undelivered] at hi ⊢
      omega
    · intro t h1
      simp only [List.mem_append, List.mem_cons] at h1 hb
      rcases h1 with h1 | h1 | h1
      · exact hb t (Or.inl h1)
      · subst h1
        rw [sitemapTaskFetch_fst site link r hf]
        trivial
      · exact hb t (Or.inr (Or.inr h1))
  | skip pre post pages hab ht =>
    exact absurd (hb (ExtractTask.send none pages) (by simp [ht])) (by simp [ExtractTask.batchNonNil])
  | append pre post pages hab ht =>
    simp only [ht] at hi hb ⊢
    refine ⟨?_, ?_, fun h => absurd h (by simp [hab])⟩
    · simp [List.countP_append, List.countP_cons, ExtractTask.undelivered] at hi ⊢
      omega
    · intro t h1
      simp only [List.mem_append, List.mem_cons] at h1 hb
      rcases h1 with h1 | h1 | h1
      · exact hb t (Or.inl h1)
      · subst h1; trivial
      · exact hb t (Or.inr (Or.inr h1))

theorem extractInv_run {site : Site} {startURL : GoString} {acts : List Act}
    {s : ExtractState}
    (h : runFrom (extractStep site) (extractInit startURL) acts = some s) : ExtractInv s :=
  runFrom_invariant (extractStep site) ExtractInv
    (fun _ _ _ hs hst => extractInv_step hs (extractStep_move hst))
    acts (extractInit startURL) s (extractInv_init startURL) h

/-! ### Counting the receives, the decrements and the launches of an execution -/

theorem extract_tally_step {site : Site} {s t : ExtractState} {a : Act}
    (h : ExtractMove site s a t) :
    t.n + (if isDecrement s.main a then 1 else 0 : Nat)
        = s.n + (if isExtractLaunch s.main a then 1 else 0 : Nat)
    ∧ (if isReceive a then 1 else 0) + inRange s.main
        = (if isDecrement s.main a then 1 else 0) + inRange t.main
    ∧ t.tasks.length = s.tasks.length + (if isExtractLaunch s.main a then 1 else 0) := by
  have task_case : ∀ (i : Nat) (u : ExtractState), u.n = s.n → u.main = s.main →
      u.tasks.length = s.tasks.length →
      u.n + (if isDecrement s.main (Act.task i) then 1 else 0 : Nat)
          = s.n + (if isExtractLaunch s.main (Act.task i) then 1 else 0 : Nat)
      ∧ (if isReceive (Act.task i) then 1 else 0) + inRange s.main
          = (if isDecrement s.main (Act.task i) then 1 else 0) + inRange u.main
      ∧ u.tasks.length
          = s.tasks.length + (if isExtractLaunch s.main (Act.task i) then 1 else 0) := by
    intro i u h1 h2 h3
    rw [h1, h2, h3]
    cases hm : s.main with
    | recv => simp [isDecrement, isExtractLaunch, isReceive, inRange]
    | range l => simp [isDecrement, isExtractLaunch, isReceive, inRange]
    | returned r => simp [isDecrement, isExtractLaunch, isReceive, inRange]
  cases h with
  | exit hab hm hn => simp [hm, isDecrement, isExtractLaunch, isReceive, inRange]
  | decrement hab hm => simp [hm, isDecrement, isExtractLaunch, isReceive, inRange]
  | launch link rest hab hm => simp [hm, isDecrement, isExtractLaunch, isReceive, inRange]
  | seed batch hab hm hs hn => simp [hm, isDecrement, isExtractLaunch, isReceive, inRange]
  | receive pre post sm pages hab hm hn ht =>
    simp [hm, ht, isDecrement, isExtractLaunch, isReceive, inRange]
  | panic pre post link hab ht hf => exact task_case _ _ rfl rfl rfl
  | fetch pre post link r hab ht hf => exact task_case _ _ rfl rfl (by simp [ht])
  | skip pre post pages hab ht => exact task_case _ _ rfl rfl (by simp [ht])
  | append pre post pages hab ht => exact task_case _ _ rfl rfl (by simp [ht])

theorem extract_tally_run (site : Site) (acts : List Act) :
    ∀ (s t : ExtractState), runFrom (extractStep site) s acts = some t →
    t.n + (tally (extractStep site) (fun u a => isDecrement u.main a) s acts : Nat)
        = s.n + (tally (extractStep site) (fun u a => isExtractLaunch u.main a) s acts : Nat)
    ∧ tally (extractStep site) (fun _ a => isReceive a) s acts + inRange s.main
        = tally (extractStep site) (fun u a => isDecrement u.main a) s acts + inRange t.main
    ∧ t.tasks.length = s.tasks.length
        + tally (extractStep site) (fun u a => isExtractLaunch u.main a) s acts := by
  induction acts with
  | nil =>
    intro s t h
    simp only [runFrom] at h
    injection h with h
    subst h
    simp [tally]
  | cons a as ih =>
    intro s t h
    simp only [runFrom] at h
    cases hsa : extractStep site s a with
    | none => rw [hsa] at h; exact absurd h (by simp)
    | some u =>
      rw [hsa] at h
      obtain ⟨i1, i2, i3⟩ := ih u t h
      obtain ⟨j1, j2, j3⟩ := extract_tally_step (extractStep_move hsa)
      simp only [tally, hsa]
      refine ⟨?_, ?_, ?_⟩
      · push_cast at i1 j1 ⊢
        omega
      · omega
      · omega

theorem scrape_tally_step {fetch : GoString → Option Response}
    {parser : Response → Option SeoData} {k : Nat} {s t : ScrapeState} {a : Act}
    (h : ScrapeMove fetch parser k s a t) :
    t.n + (if isDecrement s.main a then 1 else 0 : Nat)
        = s.n + (if isScrapeLaunch s.main a then 1 else 0 : Nat)
    ∧ (if isReceive a then 1 else 0) + inRange s.main
        = (if isDecrement s.main a then 1 else 0) + inRange t.main
    ∧ t.tasks.length = s.tasks.length + (if isScrapeLaunch s.main a then 1 else 0) := by
  have task_case : ∀ (i : Nat) (u : ScrapeState), u.n = s.n → u.main = s.main →
      u.tasks.length = s.tasks.length →
      u.n + (if isDecrement s.main (Act.task i) then 1 else 0 : Nat)
          = s.n + (if isScrapeLaunch s.main (Act.task i) then 1 else 0 : Nat)
      ∧ (if isReceive (Act.task i) then 1 else 0) + inRange s.main
          = (if isDecrement s.main (Act.task i) then 1 else 0) + inRange u.main
      ∧ u.tasks.length
          = s.tasks.length + (if isScrapeLaunch s.main (Act.task i) then 1 else 0) := by
    intro i u h1 h2 h3
    rw [h1, h2, h3]
    cases hm : s.main with
    | recv => simp [isDecrement, isScrapeLaunch, isReceive, inRange]
    | range l => simp [isDecrement, isScrapeLaunch, isReceive, inRange]
    | returned r => simp [isDecrement, isScrapeLaunch, isReceive, inRange]
  cases h with
  | exit hm hn => simp [hm, isDecrement, isScrapeLaunch, isReceive, inRange]
  | decrement hm => simp [hm, isDecrement, isScrapeLaunch, isReceive, inRange]
  | launch url rest hm hu => simp [hm, hu, isDecrement, isScrapeLaunch, isReceive, inRange]
  | pass rest hm => simp [hm, isDecrement, isScrapeLaunch, isReceive, inRange]
  | seed batch hm hs hn => simp [hm, isDecrement, isScrapeLaunch, isReceive, inRange]
  | receive pre post hm hn ht =>
    simp [hm, ht, isDecrement, isScrapeLaunch, isReceive, inRange]
  | acquire pre post url ht hk => exact task_case _ _ rfl rfl (by simp [ht])
  | request pre post url ht => exact task_case _ _ rfl rfl (by simp [ht])
  | release pre post resp ht hk => exact task_case _ _ rfl rfl (by simp [ht])
  | failed pre post ht => exact task_case _ _ rfl rfl (by simp [ht])
  | parse pre post resp ht => exact task_case _ _ rfl rfl (by simp [ht])
  | log pre post ht => exact task_case _ _ rfl rfl (by simp [ht])
  | record pre post res ht => exact task_case _ _ rfl rfl (by simp [ht])

theorem scrape_tally_run (fetch : GoString → Option Response)
    (parser : Response → Option SeoData) (k : Nat) (acts : List Act) :
    ∀ (s t : ScrapeState), runFrom (scrapeStep fetch parser k) s acts = some t →
    t.n + (tally (scrapeStep fetch parser k) (fun u a => isDecrement u.main a) s acts : Nat)
        = s.n + (tally (scrapeStep fetch parser k) (fun u a => isScrapeLaunch u.main a) s acts
                  : Nat)
    ∧ tally (scrapeStep fetch parser k) (fun _ a => isReceive a) s acts + inRange s.main
        = tally (scrapeStep fetch parser k) (fun u a => isDecrement u.main a) s acts
          + inRange t.main
    ∧ t.tasks.length = s.tasks.length
        + tally (scrapeStep fetch parser k) (fun u a => isScrapeLaunch u.main a) s acts := by
  induction acts with
  | nil =>
    intro s t h
    simp only [runFrom] at h
    injection h with h
    subst h
    simp [tally]
  | cons a as ih =>
    intro s t h
    simp only [runFrom] at h
    cases hsa : scrapeStep fetch parser k s a with
    | none => rw [hsa] at h; exact absurd h (by simp)
    | some u =>
      rw [hsa] at h
      obtain ⟨i1, i2, i3⟩ := ih u t h
      obtain ⟨j1, j2, j3⟩ := scrape_tally_step (scrapeStep_move hsa)
      simp only [tally, hsa]
      refine ⟨?_, ?_, ?_⟩
      · push_cast at i1 j1 ⊢
        omega
      · omega
      · omega

theorem extractExits_iff {site : Site} {s : ExtractState} (hi : ExtractInv s) :
    extractExits site s ↔ s.main = MainPc.recv ∧ extractPending s = 0 := by
  obtain ⟨hn, _, hk⟩ := hi
  constructor
  · rintro ⟨t, r, hst, hr⟩
    have hm := extractStep_move hst
    cases hm with
    | exit hab hm hle =>
      refine ⟨hm, ?_⟩
      rw [hm] at hn
      simp only [inRange] at hn
      omega
    | decrement hab hm => simp at hr
    | launch link rest hab hm => simp at hr
  · rintro ⟨hm, hp⟩
    have hab : s.aborted = false := by
      cases hb : s.aborted with
      | false => rfl
      | true =>
        have := hk hb
        unfold extractPending at hp
        omega
    rw [hm, hp] at hn
    simp only [inRange] at hn
    exact ⟨_, s.toCrawl, extractMove_step (ExtractMove.exit s hab hm (by omega)), rfl⟩

theorem scrapeExits_iff {fetch : GoString → Option Response}
    {parser : Response → Option SeoData} {k : Nat} {s : ScrapeState} (hi : ScrapeInv k s) :
    scrapeExits fetch parser k s ↔ s.main = MainPc.recv ∧ scrapePending s = 0 := by
  obtain ⟨_, _, hn⟩ := hi
  unfold scrapePending
  constructor
  · rintro ⟨t, r, hst, hr⟩
    have hm := scrapeStep_move hst
    cases hm with
    | exit hm hle =>
      refine ⟨hm, ?_⟩
      rw [hm] at hn
      simp only [inRange] at hn
      omega
    | decrement hm => simp at hr
    | launch link rest hm hu => simp at hr
    | pass rest hm => simp at hr
  · rintro ⟨hm, hp⟩
    rw [hm, hp] at hn
    simp only [inRange] at hn
    exact ⟨_, s.results, scrapeMove_step (ScrapeMove.exit s hm (by omega)), rfl⟩

/-- C10, as stated, fails: in `scrapeUrls` on two pages, once both tasks are
launched `n` is 3 while two goroutines are launched and not finished (the
seeding goroutine has delivered its batch, whose `n--` is still to come). -/
theorem counter_ahead_of_running_tasks :
    ¬ (∀ (fetch : GoString → Option Response) (parser : Response → Option SeoData) (K : Nat)
        (urls : List GoString) (acts : List Act) (s : ScrapeState),
        runFrom (scrapeStep fetch parser K) (scrapeInit urls) acts = some s →
        s.n = ((seedCount s.seed + s.tasks.countP ScrapeTask.running : Nat) : Int)) := by
  intro h
  have h1 := h (fun _ => none) (fun _ => none) 1 twoPages twoPagesActs twoPagesState
    (by decide)
  exact absurd h1 (by decide)

/-- C10, amended: in both worklist engines, in every state of every
interleaving, `n` equals the number of goroutines (the seeding goroutine and
the tasks) whose batch the main loop has not yet received, plus one while the
main loop is inside the `range` loop over a received batch, whose `n--` comes
after that loop; in `scrapeUrls` those tasks are the tasks launched and not
finished. Along the execution every received batch has been followed by one
decrement, except the batch whose `range` loop is running, every launch of a
task has incremented `n` once, and `n` is one plus the launches minus the
decrements. The loop can exit exactly when the main loop is at its head and
no goroutine has a batch left to deliver. -/
theorem pending_counter_accounts (site : Site) (startURL : GoString)
    (fetch : GoString → Option Response) (parser : Response → Option SeoData) (K : Nat)
    (urls : List GoString) (actsE actsS : List Act) (e : ExtractState) (c : ScrapeState)
    (he : runFrom (extractStep site) (extractInit startURL) actsE = some e)
    (hc : runFrom (scrapeStep fetch parser K) (scrapeInit urls) actsS = some c) :
    (e.n = ((extractPending e + inRange e.main : Nat) : Int)
      ∧ e.n + (tally (extractStep site) (fun u a => isDecrement u.main a)
                 (extractInit startURL) actsE : Nat)
          = 1 + (tally (extractStep site) (fun u a => isExtractLaunch u.main a)
                 (extractInit startURL) actsE : Nat)
      ∧ tally (extractStep site) (fun _ a => isReceive a) (extractInit startURL) actsE
          = tally (extractStep site) (fun u a => isDecrement u.main a)
              (extractInit startURL) actsE + inRange e.main
      ∧ e.tasks.length
          = tally (extractStep site) (fun u a => isExtractLaunch u.main a)
              (extractInit startURL) actsE
      ∧ (extractExits site e ↔ e.main = MainPc.recv ∧ extractPending e = 0))
    ∧ (c.n = ((scrapePending c + inRange c.main : Nat) : Int)
      ∧ c.n + (tally (scrapeStep fetch parser K) (fun u a => isDecrement u.main a)
                 (scrapeInit urls) actsS : Nat)
          = 1 + (tally (scrapeStep fetch parser K) (fun u a => isScrapeLaunch u.main a)
                 (scrapeInit urls) actsS : Nat)
      ∧ tally (scrapeStep fetch parser K) (fun _ a => isReceive a) (scrapeInit urls) actsS
          = tally (scrapeStep fetch parser K) (fun u a => isDecrement u.main a)
              (scrapeInit urls) actsS + inRange c.main
      ∧ c.tasks.length
          = tally (scrapeStep fetch parser K) (fun u a => isScrapeLaunch u.main a)
              (scrapeInit urls) actsS
      ∧ (scrapeExits fetch parser K c ↔ c.main = MainPc.recv ∧ scrapePending c = 0)) := by
  have ie := extractInv_run he
  have ic := scrapeInv_run hc
  obtain ⟨a1, a2, a3⟩ := extract_tally_run site actsE _ _ he
  obtain ⟨b1, b2, b3⟩ := scrape_tally_run fetch parser K actsS _ _ hc
  refine ⟨⟨ie.1, ?_, ?_, ?_, extractExits_iff ie⟩, ⟨ic.2.2, ?_, ?_, ?_, scrapeExits_iff ic⟩⟩
  · simpa [extractInit] using a1
  · simpa [extractInit, inRange] using a2
  · simpa [extractInit] using a3
  · simpa [scrapeInit] using b1
  · simpa [scrapeInit, inRange] using b2
  · simpa [scrapeInit] using b3

/-- The counter in two states: `extractSitemapURLs` after its return, and
`scrapeUrls` with two tasks launched and the `n--` of their batch to come. -/
theorem pending_counter_accounts_witness :
    runFrom (extractStep onePageSite) (extractInit siteRoot) earlyReturnActs
      = some earlyReturnState
    ∧ runFrom (scrapeStep (fun _ => none) (fun _ => none) 1) (scrapeInit twoPages) twoPagesActs
      = some twoPagesState
    ∧ earlyReturnState.n
        = ((extractPending earlyReturnState + inRange earlyReturnState.main : Nat) : Int)
    ∧ twoPagesState.n = ((scrapePending twoPagesState + inRange twoPagesState.main : Nat) : Int)
    ∧ twoPagesState.n = 3 ∧ scrapePending twoPagesState = 2 :=
  ⟨by decide, by decide,
   (pending_counter_accounts onePageSite siteRoot (fun _ => none) (fun _ => none) 1 twoPages
      earlyReturnActs twoPagesActs earlyReturnState twoPagesState
      (by decide) (by decide)).1.1,
   (pending_counter_accounts onePageSite siteRoot (fun _ => none) (fun _ => none) 1 twoPages
      earlyReturnActs twoPagesActs earlyReturnState twoPagesState
      (by decide) (by decide)).2.1,
   by decide, by decide⟩

/-! ## Termination of `extractSitemapURLs` -/

theorem treeDepthLE_succ (site : Site) (d : Nat) :
    ∀ (u : GoString), treeDepthLE site d u = true → treeDepthLE site (d + 1) u = true := by
  induction d with
  | zero =>
    intro u h
    simp only [treeDepthLE, List.isEmpty_iff] at h
    simp [treeDepthLE, h]
  | succ d ih =>
    intro u h
    rw [treeDepthLE, List.all_eq_true] at h
    rw [treeDepthLE, List.all_eq_true]
    intro c hc
    exact ih c (h c hc)

theorem treeDepthLE_nested (site : Site) (d : Nat) (u : GoString)
    (h : treeDepthLE site d u = true) :
    ∀ c ∈ nestedSitemaps site u, treeDepthLE site d c = true := by
  cases d with
  | zero =>
    simp only [treeDepthLE, List.isEmpty_iff] at h
    simp [h]
  | succ d =>
    rw [treeDepthLE, List.all_eq_true] at h
    intro c hc
    exact treeDepthLE_succ site d c (h c hc)

theorem linkWeight_stable (site : Site) (d : Nat) :
    ∀ (u : GoString), treeDepthLE site d u = true →
      linkWeight site (d + 1) u = linkWeight site d u := by
  induction d with
  | zero =>
    intro u h
    simp only [treeDepthLE, List.isEmpty_iff] at h
    simp [linkWeight, h]
  | succ d ih =>
    intro u h
    rw [treeDepthLE, List.all_eq_true] at h
    rw [linkWeight, linkWeight]
    congr 2
    apply List.map_congr_left
    intro c hc
    rw [ih c (h c hc)]

theorem linkWeight_unfold (site : Site) (d : Nat) (u : GoString)
    (h : treeDepthLE site d u = true) :
    linkWeight site d u = 4 + batchWeight site d (nestedSitemaps site u) := by
  cases d with
  | zero =>
    simp only [treeDepthLE, List.isEmpty_iff] at h
    simp [linkWeight, batchWeight, h]
  | succ d =>
    have h2 := h
    rw [treeDepthLE, List.all_eq_true] at h2
    rw [linkWeight, batchWeight]
    congr 2
    apply List.map_congr_left
    intro c hc
    rw [linkWeight_stable site d c (h2 c hc)]

theorem depthOK_init (site : Site) (d : Nat) (startURL : GoString)
    (h : treeDepthLE site d startURL = true) : DepthOK site d (extractInit startURL) := by
  refine ⟨trivial, ?_, ?_⟩
  · intro batch hb c hc
    simp only [extractInit, Option.some.injEq] at hb
    subst hb
    simp only [List.mem_singleton] at hc
    subst hc
    exact h
  · intro t ht
    simp [extractInit] at ht

theorem linkWeight_pos (site : Site) (d : Nat) (link : GoString) :
    4 ≤ linkWeight site d link := by
  cases d with
  | zero => simp [linkWeight]
  | succ d => simp [linkWeight]

theorem extract_measure_step {site : Site} {d : Nat} {s t : ExtractState} {a : Act}
    (hd : DepthOK site d s) (h : ExtractMove site s a t) :
    DepthOK site d t ∧ stepsLeft site d t + 1 ≤ stepsLeft site d s := by
  obtain ⟨hm0, hs0, ht0⟩ := hd
  unfold DepthOK stepsLeft at *
  cases h with
  | exit hab hm hn =>
    simp only [hab, hm, mainWeight, mainDepthOK] at hm0 ⊢
    exact ⟨⟨trivial, hs0, ht0⟩, by simp; omega⟩
  | decrement hab hm =>
    simp only [hab, hm, mainWeight, mainDepthOK, batchWeight] at hm0 ⊢
    exact ⟨⟨trivial, hs0, ht0⟩, by simp; omega⟩
  | launch link rest hab hm =>
    simp only [hab, hm, mainWeight, mainDepthOK, batchWeight] at hm0 ⊢
    refine ⟨⟨?_, hs0, ?_⟩, ?_⟩
    · intro c hc
      exact hm0 c (List.mem_cons_of_mem _ hc)
    · intro t ht
      rcases List.mem_append.1 ht with h1 | h1
      · exact ht0 t h1
      · simp only [List.mem_singleton] at h1
        subst h1
        exact hm0 link (List.mem_cons_self _ _)
    · simp [taskWeight]
      omega
  | seed batch hab hm hs hn =>
    simp only [hab, hm, hs, mainWeight, mainDepthOK, seedWeight] at hm0 hs0 ⊢
    refine ⟨⟨?_, ?_, ht0⟩, by simp; omega⟩
    · exact hs0 batch rfl
    · intro b hb
      exact absurd hb (by simp)
  | receive pre post sm pages hab hm hn ht =>
    simp only [hab, hm, ht, mainWeight, mainDepthOK] at hm0 ht0 ⊢
    refine ⟨⟨?_, hs0, ?_⟩, ?_⟩
    · exact ht0 (ExtractTask.send (some sm) pages) (by simp)
    · intro t h1
      simp only [List.mem_append, List.mem_cons] at h1 ht0
      rcases h1 with h1 | h1 | h1
      · exact ht0 t (Or.inl h1)
      · subst h1; trivial
      · exact ht0 t (Or.inr (Or.inr h1))
    · simp [taskWeight]
      omega
  | panic pre post link hab ht hf =>
    refine ⟨⟨hm0, hs0, ht0⟩, ?_⟩
    have := linkWeight_pos site d link
    simp [hab, ht, taskWeight]
    omega
  | fetch pre post link r hab ht hf =>
    simp only [hab, ht] at ht0 ⊢
    have hl : treeDepthLE site d link = true := ht0 (ExtractTask.fetch link) (by simp)
    have hr := sitemapTaskFetch_fst site link r hf
    refine ⟨⟨hm0, hs0, ?_⟩, ?_⟩
    · intro t h1
      simp only [List.mem_append, List.mem_cons] at h1 ht0
      rcases h1 with h1 | h1 | h1
      · exact ht0 t (Or.inl h1)
      · subst h1
        rw [hr]
        exact treeDepthLE_nested site d link hl
      · exact ht0 t (Or.inr (Or.inr h1))
    · rw [hr]
      simp [taskWeight, linkWeight_unfold site d link hl]
      omega
  | skip pre post pages hab ht =>
    simp only [hab, ht] at ht0 ⊢
    refine ⟨⟨hm0, hs0, ?_⟩, ?_⟩
    · intro t h1
      simp only [List.mem_append, List.mem_cons] at h1 ht0
      rcases h1 with h1 | h1 | h1
      · exact ht0 t (Or.inl h1)
      · subst h1; trivial
      · exact ht0 t (Or.inr (Or.inr h1))
    · simp [taskWeight]
      omega
  | append pre post pages hab ht =>
    simp only [hab, ht] at ht0 ⊢
    refine ⟨⟨hm0, hs0, ?_⟩, ?_⟩
    · intro t h1
      simp only [List.mem_append, List.mem_cons] at h1 ht0
      rcases h1 with h1 | h1 | h1
      · exact ht0 t (Or.inl h1)
      · subst h1; trivial
      · exact ht0 t (Or.inr (Or.inr h1))
    · simp [taskWeight]
      omega

theorem extract_measure_run (site : Site) (d : Nat) (acts : List Act) :
    ∀ (s t : ExtractState), DepthOK site d s → runFrom (extractStep site) s acts = some t →
      DepthOK site d t ∧ stepsLeft site d t + acts.length ≤ stepsLeft site d s := by
  induction acts with
  | nil =>
    intro s t hd h
    simp only [runFrom] at h
    injection h with h
    subst h
    exact ⟨hd, by simp⟩
  | cons a as ih =>
    intro s t hd h
    simp only [runFrom] at h
    cases hsa : extractStep site s a with
    | none => rw [hsa] at h; exact absurd h (by simp)
    | some u =>
      rw [hsa] at h
      obtain ⟨j1, j2⟩ := extract_measure_step hd (extractStep_move hsa)
      obtain ⟨i1, i2⟩ := ih u t j1 h
      refine ⟨i1, ?_⟩
      simp only [List.length_cons]
      omega

theorem extract_progress {site : Site} {s : ExtractState} (hi : ExtractInv s)
    (hab : s.aborted = false) (hr : ∀ result, s.main ≠ MainPc.returned result) :
    ∃ a t, extractStep site s a = some t := by
  obtain ⟨hn, hb, _⟩ := hi
  cases hm : s.main with
  | returned r => exact absurd hm (hr r)
  | range l =>
    cases l with
    | nil => exact ⟨Act.main, _, extractMove_step (ExtractMove.decrement s hab hm)⟩
    | cons link rest =>
      exact ⟨Act.main, _, extractMove_step (ExtractMove.launch s link rest hab hm)⟩
  | recv =>
    by_cases h0 : s.n ≤ 0
    · exact ⟨Act.main, _, extractMove_step (ExtractMove.exit s hab hm h0)⟩
    · have hpos : 0 < s.n := by omega
      cases hs : s.seed with
      | some batch =>
        exact ⟨Act.recvSeed, _, extractMove_step (ExtractMove.seed s batch hab hm hs hpos)⟩
      | none =>
        have hc : 0 < s.tasks.countP ExtractTask.undelivered := by
          rw [hm] at hn
          simp only [extractPending, hs, seedCount, inRange] at hn
          simp at hn
          omega
        obtain ⟨t, ht, hu⟩ := List.countP_pos_iff.1 hc
        obtain ⟨pre, post, hsplit⟩ := List.append_of_mem ht
        cases t with
        | fetch link =>
          cases hf : sitemapTaskFetch site link with
          | none => exact ⟨_, _, extractMove_step (ExtractMove.panic s pre post link hab hsplit hf)⟩
          | some r =>
            exact ⟨_, _, extractMove_step (ExtractMove.fetch s pre post link r hab hsplit hf)⟩
        | send sm pages =>
          cases sm with
          | none => exact ⟨_, _, extractMove_step (ExtractMove.skip s pre post pages hab hsplit)⟩
          | some sm =>
            exact ⟨_, _,
              extractMove_step (ExtractMove.receive s pre post sm pages hab hm hpos hsplit)⟩
        | append pages => simp [ExtractTask.undelivered] at hu
        | done => simp [ExtractTask.undelivered] at hu

theorem extract_ends_from (site : Site) (d : Nat) :
    ∀ (m : Nat) (s : ExtractState), stepsLeft site d s ≤ m → ExtractInv s → DepthOK site d s →
      ∃ acts t, runFrom (extractStep site) s acts = some t
        ∧ ((∃ result, t.main = MainPc.returned result) ∨ t.aborted = true) := by
  intro m
  induction m with
  | zero =>
    intro s hm hi hd
    by_cases hr : (∃ result, s.main = MainPc.returned result) ∨ s.aborted = true
    · exact ⟨[], s, rfl, hr⟩
    · have hab : s.aborted = false := by
        cases hb : s.aborted with
        | false => rfl
        | true => exact absurd (Or.inr hb) hr
      obtain ⟨a, t, hst⟩ := @extract_progress site _ hi hab (fun r h => hr (Or.inl ⟨r, h⟩))
      have := (extract_measure_step hd (extractStep_move hst)).2
      omega
  | succ m ih =>
    intro s hm hi hd
    by_cases hr : (∃ result, s.main = MainPc.returned result) ∨ s.aborted = true
    · exact ⟨[], s, rfl, hr⟩
    · have hab : s.aborted = false := by
        cases hb : s.aborted with
        | false => rfl
        | true => exact absurd (Or.inr hb) hr
      obtain ⟨a, t, hst⟩ := @extract_progress site _ hi hab (fun r h => hr (Or.inl ⟨r, h⟩))
      obtain ⟨j1, j2⟩ := extract_measure_step hd (extractStep_move hst)
      obtain ⟨acts, u, h1, h2⟩ :=
        ih t (by omega) (extractInv_step hi (extractStep_move hst)) j1
      refine ⟨a :: acts, u, ?_, h2⟩
      simp only [runFrom, hst]
      exact h1

theorem sitemapTaskFetch_none_iff (site : Site) (link : GoString) :
    sitemapTaskFetch site link = none ↔ site.makeRequest link = Outcome.abort := by
  unfold sitemapTaskFetch
  cases h : site.makeRequest link with
  | value r => simp
  | error => simp
  | abort => simp

theorem extract_never_aborts (site : Site)
    (hsafe : ∀ u, site.makeRequest u ≠ Outcome.abort) (startURL : GoString)
    (acts : List Act) (s : ExtractState)
    (hrun : runFrom (extractStep site) (extractInit startURL) acts = some s) :
    s.aborted = false := by
  refine runFrom_invariant (extractStep site) (fun u => u.aborted = false) ?_ acts
    (extractInit startURL) s rfl hrun
  intro u a t hu hst
  have hm := extractStep_move hst
  cases hm with
  | exit hab hm hn => exact hab
  | decrement hab hm => exact hab
  | launch link rest hab hm => exact hab
  | seed batch hab hm hs hn => exact hab
  | receive pre post sm pages hab hm hn ht => exact hab
  | panic pre post link hab ht hf =>
    exact absurd ((sitemapTaskFetch_none_iff site link).1 hf) (hsafe link)
  | fetch pre post link r hab ht hf => exact hab
  | skip pre post pages hab ht => exact hab
  | append pre post pages hab ht => exact hab

/-- Termination of `extractSitemapURLs` on a tree of at most `d` levels: every
interleaving has at most `stepsLeft` steps; an execution that cannot go on has
returned or the process has been killed by a panic in `makeRequest`; some
execution ends in one of these two ways; and when `makeRequest` aborts on no
URL, the process is never killed. -/
theorem extract_terminates (site : Site) (d : Nat) (startURL : GoString)
    (hd : treeDepthLE site d startURL = true) :
    (∀ (acts : List Act) (s : ExtractState),
        runFrom (extractStep site) (extractInit startURL) acts = some s →
        acts.length ≤ stepsLeft site d (extractInit startURL)
        ∧ ((∀ a, extractStep site s a = none) →
            (∃ result, s.main = MainPc.returned result) ∨ s.aborted = true)
        ∧ ((∀ u, site.makeRequest u ≠ Outcome.abort) → s.aborted = false))
    ∧ ∃ (acts : List Act) (s : ExtractState),
        runFrom (extractStep site) (extractInit startURL) acts = some s
        ∧ ((∃ result, s.main = MainPc.returned result) ∨ s.aborted = true) := by
  refine ⟨?_, ?_⟩
  · intro acts s hrun
    obtain ⟨_, h2⟩ := extract_measure_run site d acts _ _ (depthOK_init site d startURL hd) hrun
    refine ⟨by omega, ?_, fun hsafe => extract_never_aborts site hsafe startURL acts s hrun⟩
    intro hstuck
    by_contra hne
    have hab : s.aborted = false := by
      cases hb : s.aborted with
      | false => rfl
      | true => exact absurd (Or.inr hb) hne
    obtain ⟨a, t, hst⟩ := @extract_progress site _ (extractInv_run hrun) hab
      (fun r h => hne (Or.inl ⟨r, h⟩))
    rw [hstuck a] at hst
    exact absurd hst (by simp)
  · exact extract_ends_from site d _ _ (le_refl _) (extractInv_init startURL)
      (depthOK_init site d startURL hd)

/-! ## Failing branches, and the result of `extractSitemapURLs` -/

theorem sitemapTaskFetch_failed (site : Site) (link : GoString)
    (hfail : site.makeRequest link = Outcome.error
      ∨ ∃ r, site.makeRequest link = Outcome.value r ∧ site.locTexts r = none) :
    sitemapTaskFetch site link = some (some [], some []) := by
  unfold sitemapTaskFetch
  rcases hfail with h | ⟨r, h1, h2⟩
  · rw [h]
    rfl
  · rw [h1]
    simp only [extractUrls, h2]
    rfl

theorem failed_task_life (site : Site) (link : GoString)
    (hf : sitemapTaskFetch site link = some (some [], some []))
    (s : ExtractState) (i : Nat) (hi : s.tasks[i]? = some (ExtractTask.fetch link))
    (hab : s.aborted = false) (hm : s.main = MainPc.recv) (hn : 0 < s.n) :
    runFrom (extractStep site) s [Act.task i, Act.recvTask i, Act.main, Act.task i]
      = some { s with n := s.n - 1, tasks := s.tasks.set i ExtractTask.done } := by
  obtain ⟨pre, post, e1, e2, e3⟩ := getElem?_split _ _ _ hi
  subst e2
  have s1 := @extractMove_step site _ _ _ (ExtractMove.fetch s pre post link _ hab e1 hf)
  simp only [runFrom, s1]
  have s2 := @extractMove_step site _ _ _ (ExtractMove.receive
    { s with tasks := pre ++ ExtractTask.send (some []) (some []) :: post } pre post [] (some [])
    hab hm hn rfl)
  simp only [s2]
  have s3 := @extractMove_step site _ _ _ (ExtractMove.decrement
    { s with tasks := pre ++ ExtractTask.append (some []) :: post,
             main := MainPc.range [] } hab rfl)
  simp only [s3]
  have s4 := @extractMove_step site _ _ _ (ExtractMove.append
    { s with n := s.n - 1, tasks := pre ++ ExtractTask.append (some []) :: post,
             main := MainPc.recv } pre post (some []) hab rfl)
  simp only [s4, e3, Slice.elems, List.append_nil]
  rw [← hm]

theorem extract_receipt_step {site : Site} {s t : ExtractState} {a : Act}
    (hi : ExtractInv s) (h : ExtractMove site s a t) :
    t.tasks.countP ExtractTask.delivered
      = s.tasks.countP ExtractTask.delivered + (if isTaskReceive a then 1 else 0) := by
  obtain ⟨_, hb, _⟩ := hi
  cases h with
  | exit hab hm hn => simp [isTaskReceive]
  | decrement hab hm => simp [isTaskReceive]
  | launch link rest hab hm =>
    simp [isTaskReceive, List.countP_append, ExtractTask.delivered]
  | seed batch hab hm hs hn => simp [isTaskReceive]
  | receive pre post sm pages hab hm hn ht =>
    simp [ht, isTaskReceive, List.countP_append, List.countP_cons, ExtractTask.delivered]
    omega
  | panic pre post link hab ht hf => simp [isTaskReceive]
  | fetch pre post link r hab ht hf =>
    simp [ht, isTaskReceive, List.countP_append, List.countP_cons, ExtractTask.delivered]
  | skip pre post pages hab ht =>
    exact absurd (hb (ExtractTask.send none pages) (by simp [ht]))
      (by simp [ExtractTask.batchNonNil])
  | append pre post pages hab ht =>
    simp [ht, isTaskReceive, List.countP_append, List.countP_cons, ExtractTask.delivered]

theorem extract_receipt_run (site : Site) (acts : List Act) :
    ∀ (s t : ExtractState), ExtractInv s → runFrom (extractStep site) s acts = some t →
      t.tasks.countP ExtractTask.delivered
        = s.tasks.countP ExtractTask.delivered
          + tally (extractStep site) (fun _ a => isTaskReceive a) s acts := by
  induction acts with
  | nil =>
    intro s t _ h
    simp only [runFrom] at h
    injection h with h
    subst h
    simp [tally]
  | cons a as ih =>
    intro s t hi h
    simp only [runFrom] at h
    cases hsa : extractStep site s a with
    | none => rw [hsa] at h; exact absurd h (by simp)
    | some u =>
      rw [hsa] at h
      have hm := extractStep_move hsa
      have i1 := ih u t (extractInv_step hi hm) h
      have j1 := extract_receipt_step hi hm
      simp only [tally, hsa]
      omega

/-- Report-back in every execution of `extractSitemapURLs`: at any point the
number of receives of a task's batch equals the number of tasks that are past
their send, so no task is received twice and none passes its send unreceived;
and once the main goroutine has returned, the seed batch and the batch of
every launched task have been received. -/
theorem extract_reports_once (site : Site) (startURL : GoString) (acts : List Act)
    (s : ExtractState)
    (hrun : runFrom (extractStep site) (extractInit startURL) acts = some s) :
    tally (extractStep site) (fun _ a => isTaskReceive a) (extractInit startURL) acts
      = s.tasks.countP ExtractTask.delivered
    ∧ ((∃ result, s.main = MainPc.returned result) →
        s.seed = none ∧ ∀ t ∈ s.tasks, ExtractTask.delivered t = true) := by
  refine ⟨?_, ?_⟩
  · have h := extract_receipt_run site acts _ _ (extractInv_init startURL) hrun
    simpa [extractInit] using h.symm
  · rintro ⟨r, hr⟩
    have hinv := extractInv_run hrun
    -- a returned main goroutine was at the loop head with `n ≤ 0`
    have hz : extractPending s = 0 := by
      have key : ∀ (acts : List Act) (u v : ExtractState),
          ((∃ res, u.main = MainPc.returned res) → extractPending u = 0) → ExtractInv u →
          runFrom (extractStep site) u acts = some v →
          ((∃ res, v.main = MainPc.returned res) → extractPending v = 0) := by
        intro acts
        induction acts with
        | nil =>
          intro u v hu _ h
          simp only [runFrom] at h
          injection h with h
          subst h
          exact hu
        | cons a as ih =>
          intro u v hu hiu h
          simp only [runFrom] at h
          cases hsa : extractStep site u a with
          | none => rw [hsa] at h; exact absurd h (by simp)
          | some w =>
            rw [hsa] at h
            have hm := extractStep_move hsa
            refine ih w v ?_ (extractInv_step hiu hm) h
            have hiw := extractInv_step hiu hm
            obtain ⟨hn, _, _⟩ := hiu
            cases hm with
            | exit hab hm hle =>
              intro _
              rw [hm] at hn
              simp only [inRange] at hn
              show extractPending u = 0
              omega
            | decrement hab hm => rintro ⟨res, h⟩; simp at h
            | launch link rest hab hm => rintro ⟨res, h⟩; simp at h
            | seed batch hab hm hs hn => rintro ⟨res, h⟩; simp at h
            | receive pre post sm pages hab hm hn ht => rintro ⟨res, h⟩; simp at h
            | panic pre post link hab ht hf =>
              intro h
              exact hu h
            | fetch pre post link r hab ht hf =>
              intro h
              have h0 := hu h
              unfold extractPending at h0 ⊢
              simp [ht, List.countP_append, List.countP_cons, ExtractTask.undelivered] at h0
            | skip pre post pages hab ht =>
              intro h
              have h0 := hu h
              unfold extractPending at h0 ⊢
              simp [ht, List.countP_append, List.countP_cons, ExtractTask.undelivered] at h0
            | append pre post pages hab ht =>
              intro h
              have h0 := hu h
              unfold extractPending at h0 ⊢
              rw [ht] at h0
              simp only [List.countP_append, List.countP_cons, ExtractTask.undelivered,
                Bool.false_eq_true, if_false] at h0 ⊢
              omega
      exact key acts _ _ (by rintro ⟨res, h⟩; simp [extractInit] at h)
        (extractInv_init startURL) hrun ⟨r, hr⟩
    unfold extractPending seedCount at hz
    have h1 : s.seed = none := by
      cases hs : s.seed with
      | none => rfl
      | some b => simp [hs] at hz
    have h2 : s.tasks.countP ExtractTask.undelivered = 0 := by omega
    refine ⟨h1, ?_⟩
    intro t ht
    have h3 := List.countP_eq_zero.1 h2 t ht
    obtain ⟨_, hb, _⟩ := hinv
    cases t with
    | fetch link => simp [ExtractTask.undelivered] at h3
    | send sm pages => simp [ExtractTask.undelivered] at h3
    | append pages => rfl
    | done => rfl

/-- C6: on a site whose root sitemap lists a nested sitemap with a newline at
the end of its `loc` text, no request can be built for that URL and
`makeRequest` aborts; in the interleaving where its task runs, the process is
killed with `n` at 1 and the main goroutine at its receive: the task has sent
no batch, its increment of `n` is never matched by a decrement, no step is
left and `extractSitemapURLs` never returns, although the tree has one level
of nested sitemaps only. -/
theorem extractSitemapURLs_aborts_on_refused_loc :
    refusedLocSite.makeRequest "https://a.test/a.xml\n".toList = Outcome.abort
    ∧ nestedSitemaps refusedLocSite siteRoot = ["https://a.test/a.xml\n".toList]
    ∧ treeDepthLE refusedLocSite 1 siteRoot = true
    ∧ runFrom (extractStep refusedLocSite) (extractInit siteRoot) refusedLocActs
        = some refusedLocState
    ∧ refusedLocState.aborted = true
    ∧ refusedLocState.n = 1
    ∧ refusedLocState.main = MainPc.recv
    ∧ refusedLocState.tasks[1]? = some (ExtractTask.fetch "https://a.test/a.xml\n".toList)
    ∧ ∀ a, extractStep refusedLocSite refusedLocState a = none := by
  refine ⟨by decide, by decide, by decide, by decide, by decide, by decide, by decide,
    by decide, ?_⟩
  intro a
  exact extractStep_aborted refusedLocSite refusedLocState a rfl

/-- C5: on a site whose root sitemap lists one page, the interleaving in which
the main goroutine receives the (empty) batch of the only task and leaves its
loop before that task appends its pages makes `extractSitemapURLs` return the
empty list, although the tree has the leaf `https://a.test/p1`: the task
sends on `worklist` before it appends to `toCrawl`, and is still running when
`n` is zero. -/
theorem extractSitemapURLs_returns_before_append :
    treeDepthLE onePageSite 0 siteRoot = true
    ∧ treeLeaves onePageSite 0 siteRoot = ["https://a.test/p1".toList]
    ∧ runFrom (extractStep onePageSite) (extractInit siteRoot) earlyReturnActs
        = some earlyReturnState
    ∧ earlyReturnState.main = MainPc.returned []
    ∧ earlyReturnState.n = 0
    ∧ earlyReturnState.tasks.countP ExtractTask.running = 1 := by
  decide

end SitemapCrawler
